import Mathlib

/-!
Verification development for the `bytematcher` identify orchestrator
(`pkg/core/bytematcher/identify.go` of the siegfried repository).

The Go function `identify` drives up to four concurrent producers (BOF
sequence search, EOF sequence search, BOF frame search, EOF frame search)
against one buffer and merges their outputs into a single channel of
`strike` events.  We embed it as a pure function over:

  * the event streams each producer channel would deliver (the producers
    are external collaborators, specified only at their interface: a
    channel of results that is eventually closed);
  * a boolean `quitAtSeqClose` recording whether the cancellation channel
    was closed at the single point the orchestrator inspects it (the
    `select { case <-quit: ... default: ... }` after the forward-sequence
    channel closes);
  * `gateAt`, the number of forward-sequence events served before the
    `gate` case of the exclusive-loop select fires (`none` if it never
    fires) — this captures every possible interleaving of the two-way
    select in the exclusive loop;
  * `mergeSched`, the order in which the four-way select of the merge
    loop picks ready channels — this captures every possible
    interleaving of the merge loop (a pick of a nil channel is a no-op,
    matching Go select semantics where nil channels are never chosen).

The output is the ordered list of events sent on the `incoming` channel,
with `closeOut` marking `close(incoming)`, together with the updated
Matcher (lazy engine builds) and bookkeeping used by the theorems.
-/

namespace Bytematcher

/-- Result delivered on a `wac.Result` channel (`Index`, `Offset`,
`Length`, `Final` of the Aho-Corasick engine). `index0`/`index1` are
`br.Index[0]`/`br.Index[1]`. -/
structure WacResult where
  index0 : Nat
  index1 : Nat
  offset : Nat
  length : Nat
  final : Bool
deriving DecidableEq, Repr

/-- Result delivered on a frame-matcher channel (`Idx`, `Off`, `Length`). -/
structure FrameResult where
  idx : Nat
  off : Nat
  length : Nat
deriving DecidableEq, Repr

/-- The `strike` struct: one match event sent on the output channel. -/
structure Strike where
  idxa : Nat
  idxb : Nat
  offset : Nat
  length : Nat
  reverse : Bool
  frame : Bool
  final : Bool
deriving DecidableEq, Repr

/-- Abstract compiled Aho-Corasick engine: `wac.New(set)` just records the
pattern set it was compiled from. -/
structure Wac where
  set : List (List Nat)
deriving DecidableEq, Repr

/-- Model of `wac.New`. -/
def wacNew (s : List (List Nat)) : Wac := ⟨s⟩

/-- A sequence-pattern side of the matcher: the pattern set (`Set`) and
its test-tree table (`TestTreeIndex`). -/
structure SeqSet where
  set : List (List Nat)
  testTreeIndex : List Nat
deriving DecidableEq, Repr

/-- A frame-pattern side of the matcher with its test-tree table. -/
structure FrameSet where
  testTreeIndex : List Nat
deriving DecidableEq, Repr

/-- The `Matcher` configuration: limits, the four pattern sets/tables, and
the lazily built engine state (`bstarted`/`estarted`, `bAho`/`eAho`). -/
structure Matcher where
  maxBOF : Int
  maxEOF : Int
  bofSeq : SeqSet
  eofSeq : SeqSet
  bofFrames : FrameSet
  eofFrames : FrameSet
  bstarted : Bool
  estarted : Bool
  bAho : Option Wac
  eAho : Option Wac
deriving DecidableEq, Repr

/-- Kind of byte reader selected for one end of the buffer: none
(`rdr == nil`), a length-limited reader (`NewLimitReader`/
`NewLimitReverseReader`), or a full-stream reader (`NewReader`/
`NewReverseReader`). -/
inductive RdrKind where
  | noRdr
  | limit (n : Int)
  | full
deriving DecidableEq, Repr

/-- Reader selection from a scan limit, mirroring
`if b.MaxBOF > 0 ... else if b.MaxBOF < 0 ...` (and the same for MaxEOF). -/
def rdrOf (m : Int) : RdrKind :=
  if 0 < m then RdrKind.limit m else if m < 0 then RdrKind.full else RdrKind.noRdr

/-- Strike built for a forward-sequence result:
`strike{b.BOFSeq.TestTreeIndex[br.Index[0]], br.Index[1], br.Offset, br.Length, false, false, br.Final}`.
Go's panicking table indexing is modelled with `getD _ 0`. -/
def bofSeqStrike (tbl : List Nat) (r : WacResult) : Strike :=
  ⟨tbl.getD r.index0 0, r.index1, r.offset, r.length, false, false, r.final⟩

/-- Strike built for a reverse-sequence result:
`strike{b.EOFSeq.TestTreeIndex[er.Index[0]], er.Index[1], er.Offset, er.Length, true, false, er.Final}`. -/
def eofSeqStrike (tbl : List Nat) (r : WacResult) : Strike :=
  ⟨tbl.getD r.index0 0, r.index1, r.offset, r.length, true, false, r.final⟩

/-- Strike built for a BOF-frame result:
`strike{b.BOFFrames.TestTreeIndex[bf.Idx], 0, bf.Off, bf.Length, false, true, true}`. -/
def bofFrameStrike (tbl : List Nat) (f : FrameResult) : Strike :=
  ⟨tbl.getD f.idx 0, 0, f.off, f.length, false, true, true⟩

/-- Strike built for an EOF-frame result:
`strike{b.EOFFrames.TestTreeIndex[ef.Idx], 0, ef.Off, ef.Length, true, true, true}`. -/
def eofFrameStrike (tbl : List Nat) (f : FrameResult) : Strike :=
  ⟨tbl.getD f.idx 0, 0, f.off, f.length, true, true, true⟩

/-- How the exclusive (Phase SEQ-ONLY) loop ended: `cancelled` (channel
closed with quit pending: `close(incoming); return`), `exhausted`
(channel closed naturally: `break Loop`), or `gated rest` (gate signal
received with `rest` still undelivered on the forward channel). -/
inductive SeqOutcome where
  | cancelled
  | exhausted
  | gated (rest : List WacResult)
deriving DecidableEq, Repr

/-- The exclusive loop over `bchan` and `gate` (lines 49-70 of the
source).  `gateAt = some k` means the gate case of the select fires after
`k` forward-sequence events have been served; `none` means it never
fires.  `quitAtClose` is whether `quit` is ready when `bchan` closes. -/
def seqLoop (tbl : List Nat) (quitAtClose : Bool) :
    Option Nat → List WacResult → List Strike × SeqOutcome
  | some 0, stream => ([], SeqOutcome.gated stream)
  | _, [] => ([], if quitAtClose then SeqOutcome.cancelled else SeqOutcome.exhausted)
  | some (n+1), r :: rest =>
    let p := seqLoop tbl quitAtClose (some n) rest
    (bofSeqStrike tbl r :: p.1, p.2)
  | none, r :: rest =>
    let p := seqLoop tbl quitAtClose none rest
    (bofSeqStrike tbl r :: p.1, p.2)

/-- The four source channels of the merge loop. -/
inductive MChan where
  | bfr
  | efr
  | bsq
  | esq
deriving DecidableEq, Repr

/-- State of the four channel variables in the merge loop.  `none` is a
nil channel (disabled); `some l` is a live channel that will deliver the
events of `l` and then close (`some []` is a closed-but-not-yet-nil
channel: the next receive returns `ok = false` and the loop nils it). -/
structure MergeState where
  bfchan : Option (List FrameResult)
  efchan : Option (List FrameResult)
  bchan : Option (List WacResult)
  echan : Option (List WacResult)
deriving DecidableEq, Repr

/-- The merge-loop exit condition
`bfchan == nil && efchan == nil && bchan == nil && echan == nil`. -/
def MergeState.allNone (st : MergeState) : Bool :=
  st.bfchan.isNone && st.efchan.isNone && st.bchan.isNone && st.echan.isNone

/-- The four test-tree tables read by the merge loop. -/
structure Tables where
  bseq : List Nat
  eseq : List Nat
  bfr : List Nat
  efr : List Nat
deriving DecidableEq, Repr

/-- Tables of a matcher (the merge loop reads only these fields of `b`). -/
def matcherTables (b : Matcher) : Tables :=
  ⟨b.bofSeq.testTreeIndex, b.eofSeq.testTreeIndex,
   b.bofFrames.testTreeIndex, b.eofFrames.testTreeIndex⟩

/-- One iteration of the merge-loop select (lines 97-125), serving the
chosen channel: a closed channel is nilled, an event is wrapped into the
strike for its source.  Picking a nil channel is a no-op (in Go a nil
channel is simply never chosen by select). -/
def mergeStep (t : Tables) (st : MergeState) (c : MChan) : Option Strike × MergeState :=
  match c with
  | MChan.bfr =>
    match st.bfchan with
    | none => (none, st)
    | some [] => (none, { st with bfchan := none })
    | some (f :: fs) => (some (bofFrameStrike t.bfr f), { st with bfchan := some fs })
  | MChan.efr =>
    match st.efchan with
    | none => (none, st)
    | some [] => (none, { st with efchan := none })
    | some (f :: fs) => (some (eofFrameStrike t.efr f), { st with efchan := some fs })
  | MChan.bsq =>
    match st.bchan with
    | none => (none, st)
    | some [] => (none, { st with bchan := none })
    | some (r :: rs) => (some (bofSeqStrike t.bseq r), { st with bchan := some rs })
  | MChan.esq =>
    match st.echan with
    | none => (none, st)
    | some [] => (none, { st with echan := none })
    | some (r :: rs) => (some (eofSeqStrike t.eseq r), { st with echan := some rs })

/-- The merge loop run under a schedule of select choices, returning the
emitted strikes in order and the final channel state. -/
def mergeRun (t : Tables) (st : MergeState) : List MChan → List Strike × MergeState
  | [] => ([], st)
  | c :: cs =>
    let p := mergeStep t st c
    let q := mergeRun t p.2 cs
    (match p.1 with
     | some s => s :: q.1
     | none => q.1, q.2)

/-- An observable action on the `incoming` channel: an event send, or
`close(incoming)`. -/
inductive OutEvent where
  | ev (s : Strike)
  | closeOut
deriving DecidableEq, Repr

/-- Which of the three return paths of `identify` was taken: cancellation
detected at the end of Phase SEQ-ONLY (line 57), reverse-reader
construction failure (line 85), or the merge loop (line 127, carrying the
final channel state). -/
inductive Outcome where
  | cancelled
  | reverseErr
  | merged (final : MergeState)
deriving DecidableEq, Repr

/-- True on the merge-loop path. -/
def Outcome.isMerged : Outcome → Bool
  | Outcome.merged _ => true
  | _ => false

/-- The environment of one `identify` call: what each external producer
would deliver, the cancellation/gate observations, whether reverse-reader
construction fails, and the merge-loop schedule. -/
structure Env where
  bofStream : List WacResult
  eofStream : List WacResult
  bofFrameStream : List FrameResult
  eofFrameStream : List FrameResult
  quitAtSeqClose : Bool
  gateAt : Option Nat
  rrdrErr : Bool
  mergeSched : List MChan
deriving DecidableEq, Repr

/-- Result of one `identify` call: the ordered actions on the output
channel, the matcher after the call (lazy builds), whether each engine
was built during this call, the reader kinds selected (`erdr = none` when
the call returned before reverse-reader selection), how Phase SEQ-ONLY
ended (`none` when there was no forward reader), and the return path. -/
structure IdentifyResult where
  trace : List OutEvent
  m : Matcher
  bBuilt : Bool
  eBuilt : Bool
  brdr : RdrKind
  erdr : Option RdrKind
  seqEnd : Option SeqOutcome
  outcome : Outcome
deriving DecidableEq, Repr

/-- Lines 40-44: `if rdr != nil && !b.bstarted { b.bAho = wac.New(b.BOFSeq.Set); b.bstarted = true }`. -/
def buildBof (b : Matcher) : Matcher × Bool :=
  if rdrOf b.maxBOF ≠ RdrKind.noRdr ∧ b.bstarted = false then
    ({ b with bAho := some (wacNew b.bofSeq.set), bstarted := true }, true)
  else (b, false)

/-- Lines 88-92: `if rrdr != nil && !b.estarted { b.eAho = wac.New(b.EOFSeq.Set); b.estarted = true }`. -/
def buildEof (b1 : Matcher) (erdr : RdrKind) : Matcher × Bool :=
  if erdr ≠ RdrKind.noRdr ∧ b1.estarted = false then
    ({ b1 with eAho := some (wacNew b1.eofSeq.set), estarted := true }, true)
  else (b1, false)

/-- The cancellation return path (lines 54-58): `close(incoming); return`. -/
def cancelResult (b : Matcher) (b1p : Matcher × Bool) (evs : List Strike) : IdentifyResult :=
  { trace := evs.map OutEvent.ev ++ [OutEvent.closeOut],
    m := b1p.1,
    bBuilt := b1p.2,
    eBuilt := false,
    brdr := rdrOf b.maxBOF,
    erdr := none,
    seqEnd := some SeqOutcome.cancelled,
    outcome := Outcome.cancelled }

/-- Lines 73-130: frame channels start, reverse-reader selection and its
error check, lazy reverse-engine build, reverse-sequence channel start,
and the merge loop.  `bchanInit` is the forward-sequence channel as
carried out of Phase SEQ-ONLY (`none` if it was never created, `some []`
if it closed naturally, `some rest` if the gate fired first). -/
def mergeEntry (b : Matcher) (b1p : Matcher × Bool) (env : Env)
    (bchanInit : Option (List WacResult)) (seqEvs : List Strike)
    (seqEnd : Option SeqOutcome) : IdentifyResult :=
  let erdr := rdrOf b.maxEOF
  if erdr ≠ RdrKind.noRdr ∧ env.rrdrErr = true then
    { trace := seqEvs.map OutEvent.ev ++ [OutEvent.closeOut],
      m := b1p.1,
      bBuilt := b1p.2,
      eBuilt := false,
      brdr := rdrOf b.maxBOF,
      erdr := some erdr,
      seqEnd := seqEnd,
      outcome := Outcome.reverseErr }
  else
    let b2p := buildEof b1p.1 erdr
    let st0 : MergeState :=
      { bfchan := some env.bofFrameStream,
        efchan := some env.eofFrameStream,
        bchan := bchanInit,
        echan := if erdr = RdrKind.noRdr then none else some env.eofStream }
    let mr := mergeRun (matcherTables b) st0 env.mergeSched
    { trace := seqEvs.map OutEvent.ev ++ mr.1.map OutEvent.ev ++
        (if mr.2.allNone = true then [OutEvent.closeOut] else []),
      m := b2p.1,
      bBuilt := b1p.2,
      eBuilt := b2p.2,
      brdr := rdrOf b.maxBOF,
      erdr := some erdr,
      seqEnd := seqEnd,
      outcome := Outcome.merged mr.2 }

/-- The `identify` method (lines 27-131): forward-reader selection, lazy
forward-engine build, the Phase SEQ-ONLY exclusive loop (when a forward
reader exists), then `mergeEntry`. -/
def identify (b : Matcher) (env : Env) : IdentifyResult :=
  let b1p := buildBof b
  if rdrOf b.maxBOF = RdrKind.noRdr then
    mergeEntry b b1p env none [] none
  else
    match seqLoop b.bofSeq.testTreeIndex env.quitAtSeqClose env.gateAt env.bofStream with
    | (evs, SeqOutcome.cancelled) => cancelResult b b1p evs
    | (evs, SeqOutcome.exhausted) =>
      mergeEntry b b1p env (some []) evs (some SeqOutcome.exhausted)
    | (evs, SeqOutcome.gated rest) =>
      mergeEntry b b1p env (some rest) evs (some (SeqOutcome.gated rest))

/-- A sequence of `identify` calls on the same matcher (each call sees
the matcher state the previous call left behind). -/
def identifyCalls (b : Matcher) : List Env → List IdentifyResult × Matcher
  | [] => ([], b)
  | e :: es =>
    let r := identify b e
    let q := identifyCalls r.m es
    (r :: q.1, q.2)

/-- The Phase SEQ-ONLY strikes of a call: none when no forward reader is
selected (`MaxBOF = 0` skips the exclusive loop entirely), otherwise
exactly the strikes the exclusive loop emits before it ends.  `identify`
emits these, in this order, before anything else. -/
def seqPhase (b : Matcher) (env : Env) : List Strike :=
  if rdrOf b.maxBOF = RdrKind.noRdr then []
  else (seqLoop b.bofSeq.testTreeIndex env.quitAtSeqClose env.gateAt env.bofStream).1

/-- The strikes of a trace, in order. -/
def strikesOf (t : List OutEvent) : List Strike :=
  t.filterMap fun e =>
    match e with
    | OutEvent.ev s => some s
    | OutEvent.closeOut => none

/-- The list of events a channel variable still holds (a nil channel
holds none). -/
def optList {α : Type} (o : Option (List α)) : List α := o.getD []

/-! Basic lemmas about reader selection, the exclusive loop and the
merge loop. -/

lemma rdrOf_eq_noRdr {m : Int} : rdrOf m = RdrKind.noRdr ↔ m = 0 := by
  unfold rdrOf
  split_ifs with h1 h2 <;> simp_all <;> omega

lemma seqLoop_mem {tbl : List Nat} {q : Bool} :
    ∀ (g : Option Nat) (stream : List WacResult) (s : Strike),
      s ∈ (seqLoop tbl q g stream).1 → ∃ x ∈ stream, s = bofSeqStrike tbl x := by
  intro g stream
  induction stream generalizing g with
  | nil =>
    intro s hs
    rcases g with _ | (_ | n) <;> simp [seqLoop] at hs
  | cons r rest ih =>
    intro s hs
    rcases g with _ | (_ | n)
    · simp [seqLoop] at hs
      rcases hs with hs | hs
      · exact ⟨r, List.mem_cons_self r rest, hs⟩
      · obtain ⟨x, hx, he⟩ := ih none s hs
        exact ⟨x, List.mem_cons_of_mem r hx, he⟩
    · simp [seqLoop] at hs
    · simp [seqLoop] at hs
      rcases hs with hs | hs
      · exact ⟨r, List.mem_cons_self r rest, hs⟩
      · obtain ⟨x, hx, he⟩ := ih (some n) s hs
        exact ⟨x, List.mem_cons_of_mem r hx, he⟩

lemma seqLoop_quit_none (tbl : List Nat) (stream : List WacResult) :
    seqLoop tbl true none stream = (stream.map (bofSeqStrike tbl), SeqOutcome.cancelled) := by
  induction stream with
  | nil => simp [seqLoop]
  | cons r rest ih => simp [seqLoop, ih]

lemma seqLoop_noquit_none (tbl : List Nat) (stream : List WacResult) :
    seqLoop tbl false none stream = (stream.map (bofSeqStrike tbl), SeqOutcome.exhausted) := by
  induction stream with
  | nil => simp [seqLoop]
  | cons r rest ih => simp [seqLoop, ih]

lemma seqLoop_gate_le (tbl : List Nat) (q : Bool) :
    ∀ (stream : List WacResult) (k : Nat), k ≤ stream.length →
      seqLoop tbl q (some k) stream =
        ((stream.take k).map (bofSeqStrike tbl), SeqOutcome.gated (stream.drop k)) := by
  intro stream
  induction stream with
  | nil =>
    intro k hk
    have hk0 : k = 0 := Nat.le_zero.mp (by simpa using hk)
    subst hk0
    simp [seqLoop]
  | cons r rest ih =>
    intro k hk
    cases k with
    | zero => simp [seqLoop]
    | succ n =>
      have hn : n ≤ rest.length := by simpa using hk
      simp [seqLoop, ih n hn]

lemma seqLoop_gate_gt (tbl : List Nat) (q : Bool) :
    ∀ (stream : List WacResult) (k : Nat), stream.length < k →
      seqLoop tbl q (some k) stream = seqLoop tbl q none stream := by
  intro stream
  induction stream with
  | nil =>
    intro k hk
    cases k with
    | zero => exact absurd hk (Nat.not_lt_zero _)
    | succ n => simp [seqLoop]
  | cons r rest ih =>
    intro k hk
    cases k with
    | zero => exact absurd hk (Nat.not_lt_zero _)
    | succ n =>
      have hn : rest.length < n := by simpa using hk
      simp [seqLoop, ih n hn]

lemma seqLoop_not_cancelled (tbl : List Nat) :
    ∀ (g : Option Nat) (stream : List WacResult),
      (seqLoop tbl false g stream).2 ≠ SeqOutcome.cancelled := by
  intro g stream
  induction stream generalizing g with
  | nil => rcases g with _ | (_ | n) <;> simp [seqLoop]
  | cons r rest ih =>
    rcases g with _ | (_ | n)
    · simpa [seqLoop] using ih none
    · simp [seqLoop]
    · simpa [seqLoop] using ih (some n)

lemma seqLoop_gated_mem (tbl : List Nat) (q : Bool) :
    ∀ (g : Option Nat) (stream : List WacResult) (evs : List Strike) (rest : List WacResult),
      seqLoop tbl q g stream = (evs, SeqOutcome.gated rest) → ∀ x ∈ rest, x ∈ stream := by
  intro g stream
  induction stream generalizing g with
  | nil =>
    intro evs rest h x hx
    rcases g with _ | (_ | n) <;> simp [seqLoop] at h
    · rcases h with ⟨h1, h2⟩
      cases q <;> simp_all
    · rcases h with ⟨h1, h2⟩
      subst h2
      simp at hx
    · rcases h with ⟨h1, h2⟩
      cases q <;> simp_all
  | cons r rest0 ih =>
    intro evs rest h x hx
    rcases g with _ | (_ | n)
    · simp [seqLoop] at h
      rcases h with ⟨h1, h2⟩
      rcases hp : seqLoop tbl q none rest0 with ⟨evs0, oc0⟩
      rw [hp] at h2
      exact List.mem_cons_of_mem r (ih none evs0 rest (by rw [hp, ← h2]) x hx)
    · simp [seqLoop] at h
      rcases h with ⟨h1, h2⟩
      subst h2
      exact hx
    · simp [seqLoop] at h
      rcases h with ⟨h1, h2⟩
      rcases hp : seqLoop tbl q (some n) rest0 with ⟨evs0, oc0⟩
      rw [hp] at h2
      exact List.mem_cons_of_mem r (ih (some n) evs0 rest (by rw [hp, ← h2]) x hx)

lemma mergeStep_bfr_none {t : Tables} {st : MergeState} (hb : st.bfchan = none) :
    mergeStep t st MChan.bfr = (none, st) := by
  simp [mergeStep, hb]

lemma mergeStep_bfr_nil {t : Tables} {st : MergeState} (hb : st.bfchan = some []) :
    mergeStep t st MChan.bfr = (none, { st with bfchan := none }) := by
  simp [mergeStep, hb]

lemma mergeStep_bfr_cons {t : Tables} {st : MergeState} {f : FrameResult} {fs : List FrameResult}
    (hb : st.bfchan = some (f :: fs)) :
    mergeStep t st MChan.bfr = (some (bofFrameStrike t.bfr f), { st with bfchan := some fs }) := by
  simp [mergeStep, hb]

lemma mergeStep_efr_none {t : Tables} {st : MergeState} (hb : st.efchan = none) :
    mergeStep t st MChan.efr = (none, st) := by
  simp [mergeStep, hb]

lemma mergeStep_efr_nil {t : Tables} {st : MergeState} (hb : st.efchan = some []) :
    mergeStep t st MChan.efr = (none, { st with efchan := none }) := by
  simp [mergeStep, hb]

lemma mergeStep_efr_cons {t : Tables} {st : MergeState} {f : FrameResult} {fs : List FrameResult}
    (hb : st.efchan = some (f :: fs)) :
    mergeStep t st MChan.efr = (some (eofFrameStrike t.efr f), { st with efchan := some fs }) := by
  simp [mergeStep, hb]

lemma mergeStep_bsq_none {t : Tables} {st : MergeState} (hb : st.bchan = none) :
    mergeStep t st MChan.bsq = (none, st) := by
  simp [mergeStep, hb]

lemma mergeStep_bsq_nil {t : Tables} {st : MergeState} (hb : st.bchan = some []) :
    mergeStep t st MChan.bsq = (none, { st with bchan := none }) := by
  simp [mergeStep, hb]

lemma mergeStep_bsq_cons {t : Tables} {st : MergeState} {x : WacResult} {xs : List WacResult}
    (hb : st.bchan = some (x :: xs)) :
    mergeStep t st MChan.bsq = (some (bofSeqStrike t.bseq x), { st with bchan := some xs }) := by
  simp [mergeStep, hb]

lemma mergeStep_esq_none {t : Tables} {st : MergeState} (hb : st.echan = none) :
    mergeStep t st MChan.esq = (none, st) := by
  simp [mergeStep, hb]

lemma mergeStep_esq_nil {t : Tables} {st : MergeState} (hb : st.echan = some []) :
    mergeStep t st MChan.esq = (none, { st with echan := none }) := by
  simp [mergeStep, hb]

lemma mergeStep_esq_cons {t : Tables} {st : MergeState} {x : WacResult} {xs : List WacResult}
    (hb : st.echan = some (x :: xs)) :
    mergeStep t st MChan.esq = (some (eofSeqStrike t.eseq x), { st with echan := some xs }) := by
  simp [mergeStep, hb]

lemma mergeStep_bchan_none {t : Tables} {st : MergeState} {c : MChan}
    (h : st.bchan = none) : (mergeStep t st c).2.bchan = none := by
  cases c
  · rcases hb : st.bfchan with _ | (_ | ⟨f, fs⟩) <;> simp [mergeStep, hb, h]
  · rcases hb : st.efchan with _ | (_ | ⟨f, fs⟩) <;> simp [mergeStep, hb, h]
  · simp [mergeStep, h]
  · rcases hb : st.echan with _ | (_ | ⟨x, xs⟩) <;> simp [mergeStep, hb, h]

lemma mergeStep_echan_none {t : Tables} {st : MergeState} {c : MChan}
    (h : st.echan = none) : (mergeStep t st c).2.echan = none := by
  cases c
  · rcases hb : st.bfchan with _ | (_ | ⟨f, fs⟩) <;> simp [mergeStep, hb, h]
  · rcases hb : st.efchan with _ | (_ | ⟨f, fs⟩) <;> simp [mergeStep, hb, h]
  · rcases hb : st.bchan with _ | (_ | ⟨x, xs⟩) <;> simp [mergeStep, hb, h]
  · simp [mergeStep, h]

lemma mergeRun_bchan_none {t : Tables} :
    ∀ (sched : List MChan) (st : MergeState), st.bchan = none →
      (mergeRun t st sched).2.bchan = none := by
  intro sched
  induction sched with
  | nil => intro st h; simpa [mergeRun] using h
  | cons c cs ih =>
    intro st h
    rw [mergeRun]
    exact ih _ (mergeStep_bchan_none h)

lemma mergeRun_echan_none {t : Tables} :
    ∀ (sched : List MChan) (st : MergeState), st.echan = none →
      (mergeRun t st sched).2.echan = none := by
  intro sched
  induction sched with
  | nil => intro st h; simpa [mergeRun] using h
  | cons c cs ih =>
    intro st h
    rw [mergeRun]
    exact ih _ (mergeStep_echan_none h)

lemma optList_some {α : Type} (l : List α) : optList (some l) = l := rfl

lemma optList_none {α : Type} : optList (none : Option (List α)) = [] := rfl

lemma mergeRun_mem {t : Tables} :
    ∀ (sched : List MChan) (st : MergeState) (s : Strike),
      s ∈ (mergeRun t st sched).1 →
        (∃ f ∈ optList st.bfchan, s = bofFrameStrike t.bfr f) ∨
        (∃ f ∈ optList st.efchan, s = eofFrameStrike t.efr f) ∨
        (∃ x ∈ optList st.bchan, s = bofSeqStrike t.bseq x) ∨
        (∃ x ∈ optList st.echan, s = eofSeqStrike t.eseq x) := by
  intro sched
  induction sched with
  | nil => intro st s hs; simp [mergeRun] at hs
  | cons c cs ih =>
    intro st s hs
    simp only [mergeRun] at hs
    cases c
    case bfr =>
      rcases hb : st.bfchan with _ | (_ | ⟨f, fs⟩)
      · simp only [mergeStep_bfr_none hb] at hs
        have h4 := ih st s hs
        rw [hb] at h4
        exact h4
      · simp only [mergeStep_bfr_nil hb] at hs
        rcases ih _ s hs with ⟨f0, hf0, _⟩ | h | h | h
        · simp [optList] at hf0
        · exact Or.inr (Or.inl h)
        · exact Or.inr (Or.inr (Or.inl h))
        · exact Or.inr (Or.inr (Or.inr h))
      · simp only [mergeStep_bfr_cons hb] at hs
        rcases List.mem_cons.mp hs with hs | hs
        · refine Or.inl ⟨f, ?_, hs⟩
          rw [optList_some]
          exact List.mem_cons_self f fs
        · rcases ih _ s hs with ⟨f0, hf0, he⟩ | h | h | h
          · refine Or.inl ⟨f0, ?_, he⟩
            rw [optList_some]
            exact List.mem_cons_of_mem f (by simpa [optList] using hf0)
          · exact Or.inr (Or.inl h)
          · exact Or.inr (Or.inr (Or.inl h))
          · exact Or.inr (Or.inr (Or.inr h))
    case efr =>
      rcases hb : st.efchan with _ | (_ | ⟨f, fs⟩)
      · simp only [mergeStep_efr_none hb] at hs
        have h4 := ih st s hs
        rw [hb] at h4
        exact h4
      · simp only [mergeStep_efr_nil hb] at hs
        rcases ih _ s hs with h | ⟨f0, hf0, _⟩ | h | h
        · exact Or.inl h
        · simp [optList] at hf0
        · exact Or.inr (Or.inr (Or.inl h))
        · exact Or.inr (Or.inr (Or.inr h))
      · simp only [mergeStep_efr_cons hb] at hs
        rcases List.mem_cons.mp hs with hs | hs
        · refine Or.inr (Or.inl ⟨f, ?_, hs⟩)
          rw [optList_some]
          exact List.mem_cons_self f fs
        · rcases ih _ s hs with h | ⟨f0, hf0, he⟩ | h | h
          · exact Or.inl h
          · refine Or.inr (Or.inl ⟨f0, ?_, he⟩)
            rw [optList_some]
            exact List.mem_cons_of_mem f (by simpa [optList] using hf0)
          · exact Or.inr (Or.inr (Or.inl h))
          · exact Or.inr (Or.inr (Or.inr h))
    case bsq =>
      rcases hb : st.bchan with _ | (_ | ⟨x, xs⟩)
      · simp only [mergeStep_bsq_none hb] at hs
        have h4 := ih st s hs
        rw [hb] at h4
        exact h4
      · simp only [mergeStep_bsq_nil hb] at hs
        rcases ih _ s hs with h | h | ⟨x0, hx0, _⟩ | h
        · exact Or.inl h
        · exact Or.inr (Or.inl h)
        · simp [optList] at hx0
        · exact Or.inr (Or.inr (Or.inr h))
      · simp only [mergeStep_bsq_cons hb] at hs
        rcases List.mem_cons.mp hs with hs | hs
        · refine Or.inr (Or.inr (Or.inl ⟨x, ?_, hs⟩))
          rw [optList_some]
          exact List.mem_cons_self x xs
        · rcases ih _ s hs with h | h | ⟨x0, hx0, he⟩ | h
          · exact Or.inl h
          · exact Or.inr (Or.inl h)
          · refine Or.inr (Or.inr (Or.inl ⟨x0, ?_, he⟩))
            rw [optList_some]
            exact List.mem_cons_of_mem x (by simpa [optList] using hx0)
          · exact Or.inr (Or.inr (Or.inr h))
    case esq =>
      rcases hb : st.echan with _ | (_ | ⟨x, xs⟩)
      · simp only [mergeStep_esq_none hb] at hs
        have h4 := ih st s hs
        rw [hb] at h4
        exact h4
      · simp only [mergeStep_esq_nil hb] at hs
        rcases ih _ s hs with h | h | h | ⟨x0, hx0, _⟩
        · exact Or.inl h
        · exact Or.inr (Or.inl h)
        · exact Or.inr (Or.inr (Or.inl h))
        · simp [optList] at hx0
      · simp only [mergeStep_esq_cons hb] at hs
        rcases List.mem_cons.mp hs with hs | hs
        · refine Or.inr (Or.inr (Or.inr ⟨x, ?_, hs⟩))
          rw [optList_some]
          exact List.mem_cons_self x xs
        · rcases ih _ s hs with h | h | h | ⟨x0, hx0, he⟩
          · exact Or.inl h
          · exact Or.inr (Or.inl h)
          · exact Or.inr (Or.inr (Or.inl h))
          · refine Or.inr (Or.inr (Or.inr ⟨x0, ?_, he⟩))
            rw [optList_some]
            exact List.mem_cons_of_mem x (by simpa [optList] using hx0)

lemma mergeStep_bchan_keep {t : Tables} {st : MergeState} {c : MChan}
    (hc : c ≠ MChan.bsq) : (mergeStep t st c).2.bchan = st.bchan := by
  cases c
  · rcases hb : st.bfchan with _ | (_ | ⟨f, fs⟩) <;> simp [mergeStep, hb]
  · rcases hb : st.efchan with _ | (_ | ⟨f, fs⟩) <;> simp [mergeStep, hb]
  · exact absurd rfl hc
  · rcases hb : st.echan with _ | (_ | ⟨x, xs⟩) <;> simp [mergeStep, hb]

/-- In any merge run that fully drains the forward-sequence channel
(final `bchan = nil`), every event the channel held is emitted — no
matter in which order the schedule interleaves the four sources. -/
lemma mergeRun_bsq_all {t : Tables} :
    ∀ (sched : List MChan) (st : MergeState) (l : List WacResult),
      st.bchan = some l → (mergeRun t st sched).2.bchan = none →
      ∀ x ∈ l, bofSeqStrike t.bseq x ∈ (mergeRun t st sched).1 := by
  intro sched
  induction sched with
  | nil =>
    intro st l hb hfin x hx
    simp only [mergeRun] at hfin
    rw [hb] at hfin
    simp at hfin
  | cons c cs ih =>
    intro st l hb hfin x hx
    simp only [mergeRun] at hfin ⊢
    by_cases hc : c = MChan.bsq
    · subst hc
      cases l with
      | nil => simp at hx
      | cons y ys =>
        simp only [mergeStep_bsq_cons hb] at hfin ⊢
        rcases List.mem_cons.mp hx with hx | hx
        · subst hx
          exact List.mem_cons_self _ _
        · exact List.mem_cons_of_mem _ (ih _ ys rfl hfin x hx)
    · have hkeep : (mergeStep t st c).2.bchan = some l := by
        rw [mergeStep_bchan_keep hc]
        exact hb
      rcases hemit : (mergeStep t st c).1 with _ | s0
      · exact ih _ l hkeep hfin x hx
      · exact List.mem_cons_of_mem _ (ih _ l hkeep hfin x hx)

lemma strikesOf_append (a b : List OutEvent) :
    strikesOf (a ++ b) = strikesOf a ++ strikesOf b := by
  simp [strikesOf]

lemma strikesOf_map_ev (l : List Strike) : strikesOf (l.map OutEvent.ev) = l := by
  induction l with
  | nil => simp [strikesOf]
  | cons s l ih => simp [strikesOf] at ih ⊢; exact ih

lemma strikesOf_close : strikesOf [OutEvent.closeOut] = [] := by
  simp [strikesOf]

lemma mem_strikesOf {s : Strike} {t : List OutEvent} :
    s ∈ strikesOf t ↔ OutEvent.ev s ∈ t := by
  constructor
  · intro h
    simp only [strikesOf, List.mem_filterMap] at h
    obtain ⟨a, ha, he⟩ := h
    cases a with
    | ev s0 => simp at he; subst he; exact ha
    | closeOut => simp at he
  · intro h
    simp only [strikesOf, List.mem_filterMap]
    exact ⟨OutEvent.ev s, h, rfl⟩

lemma closeOut_not_mem_map (l : List Strike) :
    OutEvent.closeOut ∉ l.map OutEvent.ev := by
  simp

/-- Case analysis on a single `identify` call: there are Phase SEQ-ONLY
strikes `evs` (all built from forward-sequence results) and a carried
forward channel `bchanInit` (holding only forward-sequence results), and
the call returns through exactly one of the three paths: cancellation,
reverse-reader failure, or the merge loop. -/
lemma identify_cases (b : Matcher) (env : Env) :
    ∃ (evs : List Strike) (bchanInit : Option (List WacResult)),
      (∀ s ∈ evs, ∃ x ∈ env.bofStream, s = bofSeqStrike b.bofSeq.testTreeIndex x) ∧
      (∀ l, bchanInit = some l → ∀ x ∈ l, x ∈ env.bofStream) ∧
      (b.maxBOF = 0 → evs = [] ∧ bchanInit = none) ∧
      (((identify b env).outcome = Outcome.cancelled ∧
          (identify b env).trace = evs.map OutEvent.ev ++ [OutEvent.closeOut] ∧
          (identify b env).seqEnd = some SeqOutcome.cancelled) ∨
       ((identify b env).outcome = Outcome.reverseErr ∧
          (identify b env).trace = evs.map OutEvent.ev ++ [OutEvent.closeOut] ∧
          b.maxEOF ≠ 0 ∧ env.rrdrErr = true ∧
          ((identify b env).seqEnd = none ∨
           (identify b env).seqEnd = some SeqOutcome.exhausted ∨
           ∃ rest, (identify b env).seqEnd = some (SeqOutcome.gated rest))) ∨
       (∃ mr : List Strike × MergeState,
          mr = mergeRun (matcherTables b)
              { bfchan := some env.bofFrameStream,
                efchan := some env.eofFrameStream,
                bchan := bchanInit,
                echan := if rdrOf b.maxEOF = RdrKind.noRdr then none
                         else some env.eofStream } env.mergeSched ∧
          (identify b env).outcome = Outcome.merged mr.2 ∧
          (identify b env).trace = evs.map OutEvent.ev ++ mr.1.map OutEvent.ev ++
              (if mr.2.allNone = true then [OutEvent.closeOut] else []) ∧
          ((identify b env).seqEnd = none ∨
           (identify b env).seqEnd = some SeqOutcome.exhausted ∨
           ∃ rest, (identify b env).seqEnd = some (SeqOutcome.gated rest)))) := by
  by_cases hb0 : rdrOf b.maxBOF = RdrKind.noRdr
  · refine ⟨[], none, by simp, by simp, fun _ => ⟨rfl, rfl⟩, ?_⟩
    simp only [identify, if_pos hb0]
    by_cases herr : rdrOf b.maxEOF ≠ RdrKind.noRdr ∧ env.rrdrErr = true
    · refine Or.inr (Or.inl ?_)
      simp only [mergeEntry, if_pos herr]
      refine ⟨by trivial, by simp, ?_, herr.2, Or.inl (by trivial)⟩
      intro h0
      exact herr.1 (rdrOf_eq_noRdr.mpr h0)
    · refine Or.inr (Or.inr ?_)
      simp only [mergeEntry, if_neg herr]
      exact ⟨_, rfl, by trivial, by simp, Or.inl (by trivial)⟩
  · rcases hsl : seqLoop b.bofSeq.testTreeIndex env.quitAtSeqClose env.gateAt env.bofStream
      with ⟨evs0, oc⟩
    have hmem : ∀ s ∈ evs0, ∃ x ∈ env.bofStream, s = bofSeqStrike b.bofSeq.testTreeIndex x := by
      intro s hs
      exact seqLoop_mem env.gateAt env.bofStream s (by rw [hsl]; exact hs)
    have hbof0 : ¬ b.maxBOF = 0 := fun h0 => hb0 (rdrOf_eq_noRdr.mpr h0)
    cases oc with
    | cancelled =>
      refine ⟨evs0, none, hmem, by simp, fun h0 => absurd h0 hbof0, ?_⟩
      simp only [identify, if_neg hb0, hsl]
      exact Or.inl ⟨by trivial, by trivial, by trivial⟩
    | exhausted =>
      refine ⟨evs0, some [], hmem, by simp, fun h0 => absurd h0 hbof0, ?_⟩
      simp only [identify, if_neg hb0, hsl]
      by_cases herr : rdrOf b.maxEOF ≠ RdrKind.noRdr ∧ env.rrdrErr = true
      · refine Or.inr (Or.inl ?_)
        simp only [mergeEntry, if_pos herr]
        refine ⟨by trivial, by trivial, ?_, herr.2, Or.inr (Or.inl (by trivial))⟩
        intro h0
        exact herr.1 (rdrOf_eq_noRdr.mpr h0)
      · refine Or.inr (Or.inr ?_)
        simp only [mergeEntry, if_neg herr]
        exact ⟨_, rfl, by trivial, by trivial, Or.inr (Or.inl (by trivial))⟩
    | gated rest =>
      refine ⟨evs0, some rest, hmem, ?_, fun h0 => absurd h0 hbof0, ?_⟩
      · intro l hl x hx
        cases hl
        exact seqLoop_gated_mem b.bofSeq.testTreeIndex env.quitAtSeqClose env.gateAt
          env.bofStream evs0 rest hsl x hx
      simp only [identify, if_neg hb0, hsl]
      by_cases herr : rdrOf b.maxEOF ≠ RdrKind.noRdr ∧ env.rrdrErr = true
      · refine Or.inr (Or.inl ?_)
        simp only [mergeEntry, if_pos herr]
        refine ⟨by trivial, by trivial, ?_, herr.2, Or.inr (Or.inr ⟨rest, by trivial⟩)⟩
        intro h0
        exact herr.1 (rdrOf_eq_noRdr.mpr h0)
      · refine Or.inr (Or.inr ?_)
        simp only [mergeEntry, if_neg herr]
        exact ⟨_, rfl, by trivial, by trivial, Or.inr (Or.inr ⟨rest, by trivial⟩)⟩

lemma mergeEntry_brdr (b : Matcher) (b1p : Matcher × Bool) (env : Env)
    (bchanInit : Option (List WacResult)) (seqEvs : List Strike) (seqEnd : Option SeqOutcome) :
    (mergeEntry b b1p env bchanInit seqEvs seqEnd).brdr = rdrOf b.maxBOF := by
  simp only [mergeEntry]
  split <;> rfl

lemma mergeEntry_erdr (b : Matcher) (b1p : Matcher × Bool) (env : Env)
    (bchanInit : Option (List WacResult)) (seqEvs : List Strike) (seqEnd : Option SeqOutcome) :
    (mergeEntry b b1p env bchanInit seqEvs seqEnd).erdr = some (rdrOf b.maxEOF) := by
  simp only [mergeEntry]
  split <;> rfl

lemma identify_brdr (b : Matcher) (env : Env) :
    (identify b env).brdr = rdrOf b.maxBOF := by
  simp only [identify]
  by_cases hb0 : rdrOf b.maxBOF = RdrKind.noRdr
  · rw [if_pos hb0]
    exact mergeEntry_brdr b (buildBof b) env none [] none
  · rw [if_neg hb0]
    rcases hsl : seqLoop b.bofSeq.testTreeIndex env.quitAtSeqClose env.gateAt env.bofStream
      with ⟨evs, oc⟩
    cases oc with
    | cancelled => rfl
    | exhausted => exact mergeEntry_brdr b (buildBof b) env (some []) evs (some SeqOutcome.exhausted)
    | gated rest =>
      exact mergeEntry_brdr b (buildBof b) env (some rest) evs (some (SeqOutcome.gated rest))

lemma identify_erdr (b : Matcher) (env : Env) (k : RdrKind) :
    (identify b env).erdr = some k → k = rdrOf b.maxEOF := by
  simp only [identify]
  by_cases hb0 : rdrOf b.maxBOF = RdrKind.noRdr
  · rw [if_pos hb0, mergeEntry_erdr]
    intro h
    exact (Option.some_injective _ h).symm
  · rw [if_neg hb0]
    rcases hsl : seqLoop b.bofSeq.testTreeIndex env.quitAtSeqClose env.gateAt env.bofStream
      with ⟨evs, oc⟩
    cases oc with
    | cancelled =>
      intro h
      exact absurd h (by simp [cancelResult])
    | exhausted =>
      rw [mergeEntry_erdr]
      intro h
      exact (Option.some_injective _ h).symm
    | gated rest =>
      rw [mergeEntry_erdr]
      intro h
      exact (Option.some_injective _ h).symm

lemma strikesOf_ite_close (c : Prop) [Decidable c] :
    strikesOf (if c then [OutEvent.closeOut] else []) = [] := by
  split <;> simp [strikesOf]

lemma strikesOf_cancel_trace (evs : List Strike) :
    strikesOf (evs.map OutEvent.ev ++ [OutEvent.closeOut]) = evs := by
  rw [strikesOf_append, strikesOf_map_ev, strikesOf_close, List.append_nil]

lemma strikesOf_merged_trace (a c : List Strike) (p : Prop) [Decidable p] :
    strikesOf (a.map OutEvent.ev ++ c.map OutEvent.ev ++
      (if p then [OutEvent.closeOut] else [])) = a ++ c := by
  rw [strikesOf_append, strikesOf_append, strikesOf_map_ev, strikesOf_map_ev,
    strikesOf_ite_close, List.append_nil]

/-- C1: every return path of identify closes the output channel exactly
once, as the last action on the channel (no event follows the close);
the cancellation and reverse-reader-failure paths always close, and on
the merge path the close happens precisely when all four source channels
have been nilled (the Go exit condition `bfchan == nil && efchan == nil
&& bchan == nil && echan == nil`).  A trace without a close corresponds
to a merge schedule that has not yet drained all sources, i.e. an
execution that has not yet terminated. -/
theorem c1_output_channel_close (b : Matcher) (env : Env) :
    (∃ pre, OutEvent.closeOut ∉ pre ∧
       ((identify b env).trace = pre ++ [OutEvent.closeOut] ∨ (identify b env).trace = pre)) ∧
    (((identify b env).outcome = Outcome.cancelled ∨
        (identify b env).outcome = Outcome.reverseErr) →
       OutEvent.closeOut ∈ (identify b env).trace) ∧
    (∀ fin, (identify b env).outcome = Outcome.merged fin →
       (OutEvent.closeOut ∈ (identify b env).trace ↔ fin.allNone = true)) := by
  obtain ⟨evs, bchanInit, hevs, hbc, hz, hpath⟩ := identify_cases b env
  rcases hpath with ⟨ho, ht, hse⟩ | ⟨ho, ht, hme, herr, hse⟩ | ⟨mr, hmr, ho, ht, hse⟩
  · refine ⟨⟨evs.map OutEvent.ev, closeOut_not_mem_map evs, Or.inl ht⟩, ?_, ?_⟩
    · intro _
      rw [ht]
      simp
    · intro fin hfin
      rw [ho] at hfin
      cases hfin
  · refine ⟨⟨evs.map OutEvent.ev, closeOut_not_mem_map evs, Or.inl ht⟩, ?_, ?_⟩
    · intro _
      rw [ht]
      simp
    · intro fin hfin
      rw [ho] at hfin
      cases hfin
  · have hpre : OutEvent.closeOut ∉ evs.map OutEvent.ev ++ mr.1.map OutEvent.ev := by
      simp
    refine ⟨⟨evs.map OutEvent.ev ++ mr.1.map OutEvent.ev, hpre, ?_⟩, ?_, ?_⟩
    · by_cases hall : mr.2.allNone = true
      · rw [if_pos hall] at ht
        exact Or.inl ht
      · rw [if_neg hall] at ht
        rw [List.append_nil] at ht
        exact Or.inr ht
    · intro hco
      rcases hco with hco | hco <;> (rw [ho] at hco; cases hco)
    · intro fin hfin
      rw [ho] at hfin
      have hfin2 : mr.2 = fin := by
        cases hfin
        rfl
      subst hfin2
      by_cases hall : mr.2.allNone = true
      · rw [if_pos hall] at ht
        rw [ht]
        simp [hall]
      · rw [if_neg hall] at ht
        rw [List.append_nil] at ht
        rw [ht]
        simp [hall]

lemma mergeEntry_trace_prefix (b : Matcher) (p : Matcher × Bool) (env : Env)
    (X : Option (List WacResult)) (evs : List Strike) (se : Option SeqOutcome) :
    ∃ post, (mergeEntry b p env X evs se).trace = evs.map OutEvent.ev ++ post := by
  simp only [mergeEntry]
  split_ifs <;>
    first
      | exact ⟨[OutEvent.closeOut], rfl⟩
      | exact ⟨_, List.append_assoc _ _ _⟩

lemma mergeEntry_seqEnd (b : Matcher) (p : Matcher × Bool) (env : Env)
    (X : Option (List WacResult)) (evs : List Strike) (se : Option SeqOutcome) :
    (mergeEntry b p env X evs se).seqEnd = se := by
  simp only [mergeEntry]
  split_ifs <;> rfl

lemma mergeEntry_outcome_ne_cancelled (b : Matcher) (p : Matcher × Bool) (env : Env)
    (X : Option (List WacResult)) (evs : List Strike) (se : Option SeqOutcome) :
    (mergeEntry b p env X evs se).outcome ≠ Outcome.cancelled := by
  simp only [mergeEntry]
  split_ifs <;> simp

/-- C2: the trace of every call begins with exactly the Phase SEQ-ONLY
strikes (`seqPhase`, the output of the exclusive loop, empty when
`MaxBOF = 0`), all of which are forward-sequence strikes with
`reverse = false, frame = false` built from the forward stream — so every
event from a Phase MERGE source (BOF-frame, EOF-frame, or EOF-sequence,
i.e. every strike with `frame = true` or `reverse = true`) lies strictly
after all Phase SEQ-ONLY events; moreover the presence of any such event
implies the call did not return through the cancellation path and that
Phase SEQ-ONLY ended either with no forward channel at all, with natural
closure of the forward channel (`exhausted`), or with the escalation gate
signal (`gated`) — whichever occurred first. -/
theorem c2_phase_order (b : Matcher) (env : Env) :
    (∃ post, (identify b env).trace = (seqPhase b env).map OutEvent.ev ++ post) ∧
    (∀ s ∈ seqPhase b env, s.reverse = false ∧ s.frame = false ∧
       ∃ x ∈ env.bofStream, s = bofSeqStrike b.bofSeq.testTreeIndex x) ∧
    ((∃ s : Strike, OutEvent.ev s ∈ (identify b env).trace ∧
        (s.frame = true ∨ s.reverse = true)) →
       (identify b env).outcome ≠ Outcome.cancelled ∧
       ((identify b env).seqEnd = none ∨
        (identify b env).seqEnd = some SeqOutcome.exhausted ∨
        ∃ rest, (identify b env).seqEnd = some (SeqOutcome.gated rest))) := by
  by_cases hb0 : rdrOf b.maxBOF = RdrKind.noRdr
  · have hsp : seqPhase b env = [] := by
      simp [seqPhase, hb0]
    have hid : identify b env = mergeEntry b (buildBof b) env none [] none := by
      simp only [identify, if_pos hb0]
    refine ⟨⟨(identify b env).trace, by rw [hsp]; rfl⟩, ?_, ?_⟩
    · intro s hs
      rw [hsp] at hs
      simp at hs
    · intro _
      refine ⟨by rw [hid]; exact mergeEntry_outcome_ne_cancelled _ _ _ _ _ _, ?_⟩
      rw [hid, mergeEntry_seqEnd]
      exact Or.inl rfl
  · rcases hsl : seqLoop b.bofSeq.testTreeIndex env.quitAtSeqClose env.gateAt env.bofStream
      with ⟨evs, oc⟩
    have hsp : seqPhase b env = evs := by
      simp only [seqPhase, if_neg hb0, hsl]
    have hmem : ∀ s ∈ evs, ∃ x ∈ env.bofStream, s = bofSeqStrike b.bofSeq.testTreeIndex x := by
      intro s hs
      exact seqLoop_mem env.gateAt env.bofStream s (by rw [hsl]; exact hs)
    have hflags : ∀ s ∈ seqPhase b env, s.reverse = false ∧ s.frame = false ∧
        ∃ x ∈ env.bofStream, s = bofSeqStrike b.bofSeq.testTreeIndex x := by
      intro s hs
      rw [hsp] at hs
      obtain ⟨x, hx, he⟩ := hmem s hs
      subst he
      exact ⟨rfl, rfl, x, hx, rfl⟩
    cases oc with
    | cancelled =>
      have hid : identify b env = cancelResult b (buildBof b) evs := by
        simp only [identify, if_neg hb0, hsl]
      refine ⟨⟨[OutEvent.closeOut], by rw [hid, hsp]; rfl⟩, hflags, ?_⟩
      rintro ⟨s, hs, hfl⟩
      rw [hid] at hs
      have hs3 : OutEvent.ev s ∈ evs.map OutEvent.ev ++ [OutEvent.closeOut] := hs
      have hs2 : s ∈ evs := by
        rcases List.mem_append.mp hs3 with h2 | h2
        · simpa using h2
        · simp at h2
      obtain ⟨x, hx, he⟩ := hmem s hs2
      subst he
      rcases hfl with hfl | hfl <;> simp [bofSeqStrike] at hfl
    | exhausted =>
      have hid : identify b env =
          mergeEntry b (buildBof b) env (some []) evs (some SeqOutcome.exhausted) := by
        simp only [identify, if_neg hb0, hsl]
      obtain ⟨post, hpost⟩ := mergeEntry_trace_prefix b (buildBof b) env (some []) evs
        (some SeqOutcome.exhausted)
      refine ⟨⟨post, by rw [hid, hsp, hpost]⟩, hflags, ?_⟩
      intro _
      refine ⟨by rw [hid]; exact mergeEntry_outcome_ne_cancelled _ _ _ _ _ _, ?_⟩
      rw [hid, mergeEntry_seqEnd]
      exact Or.inr (Or.inl rfl)
    | gated rest =>
      have hid : identify b env =
          mergeEntry b (buildBof b) env (some rest) evs (some (SeqOutcome.gated rest)) := by
        simp only [identify, if_neg hb0, hsl]
      obtain ⟨post, hpost⟩ := mergeEntry_trace_prefix b (buildBof b) env (some rest) evs
        (some (SeqOutcome.gated rest))
      refine ⟨⟨post, by rw [hid, hsp, hpost]⟩, hflags, ?_⟩
      intro _
      refine ⟨by rw [hid]; exact mergeEntry_outcome_ne_cancelled _ _ _ _ _ _, ?_⟩
      rw [hid, mergeEntry_seqEnd]
      exact Or.inr (Or.inr ⟨rest, rfl⟩)

/-- Every strike on the output channel originates from one of the four
producer streams and is the strike the source builds for that result. -/
lemma identify_strike_origin (b : Matcher) (env : Env) :
    ∀ s ∈ strikesOf (identify b env).trace,
      (∃ x ∈ env.bofStream, s = bofSeqStrike b.bofSeq.testTreeIndex x) ∨
      (∃ x ∈ env.eofStream, s = eofSeqStrike b.eofSeq.testTreeIndex x) ∨
      (∃ f ∈ env.bofFrameStream, s = bofFrameStrike b.bofFrames.testTreeIndex f) ∨
      (∃ f ∈ env.eofFrameStream, s = eofFrameStrike b.eofFrames.testTreeIndex f) := by
  obtain ⟨evs, bchanInit, hevs, hbc, hz, hpath⟩ := identify_cases b env
  intro s hs
  rcases hpath with ⟨ho, ht, hse⟩ | ⟨ho, ht, hme, herr, hse⟩ | ⟨mr, hmr, ho, ht, hse⟩
  · rw [ht, strikesOf_cancel_trace] at hs
    exact Or.inl (hevs s hs)
  · rw [ht, strikesOf_cancel_trace] at hs
    exact Or.inl (hevs s hs)
  · rw [ht, strikesOf_merged_trace] at hs
    rcases List.mem_append.mp hs with hs | hs
    · exact Or.inl (hevs s hs)
    · rw [hmr] at hs
      rcases mergeRun_mem env.mergeSched _ s hs with ⟨f, hf, he⟩ | ⟨f, hf, he⟩ | ⟨x, hx, he⟩ |
        ⟨x, hx, he⟩
      · exact Or.inr (Or.inr (Or.inl ⟨f, hf, he⟩))
      · exact Or.inr (Or.inr (Or.inr ⟨f, hf, he⟩))
      · have hx2 : x ∈ optList bchanInit := hx
        cases hb2 : bchanInit with
        | none =>
          rw [hb2] at hx2
          simp [optList] at hx2
        | some l =>
          rw [hb2] at hx2
          rw [optList_some] at hx2
          exact Or.inl ⟨x, hbc l hb2 x hx2, he⟩
      · have hx2 : x ∈ optList (if rdrOf b.maxEOF = RdrKind.noRdr then none
            else some env.eofStream) := hx
        by_cases he0 : rdrOf b.maxEOF = RdrKind.noRdr
        · rw [if_pos he0] at hx2
          simp [optList] at hx2
        · rw [if_neg he0, optList_some] at hx2
          exact Or.inr (Or.inl ⟨x, hx2, he⟩)

/-- Concrete matcher with both scan limits zero, used to witness that
frame scanning happens regardless of the sequence scan limits. -/
def zMatcher : Matcher :=
  ⟨0, 0, ⟨[], []⟩, ⟨[], []⟩, ⟨[7]⟩, ⟨[9]⟩, false, false, none, none⟩

/-- Concrete environment delivering one BOF-frame and one EOF-frame
result. -/
def zEnv : Env :=
  ⟨[], [], [⟨0, 0, 1⟩], [⟨0, 0, 1⟩], false, none, false, [MChan.bfr, MChan.efr]⟩

/-- C3: reader selection follows the tri-state semantics of the scan
limits (positive: length-limited reader; negative: full reader; zero: no
reader), a zero `MaxBOF` means no forward-sequence-sourced event
(`reverse = false, frame = false`) is ever emitted, a zero `MaxEOF` means
no reverse-sequence-sourced event (`reverse = true, frame = false`) is
ever emitted, and frame-sourced events from both ends remain possible
even when both limits are zero. -/
theorem c3_scan_limits (b : Matcher) (env : Env) :
    ((0 < b.maxBOF → (identify b env).brdr = RdrKind.limit b.maxBOF) ∧
     (b.maxBOF < 0 → (identify b env).brdr = RdrKind.full) ∧
     (b.maxBOF = 0 → (identify b env).brdr = RdrKind.noRdr)) ∧
    (∀ k, (identify b env).erdr = some k →
       (0 < b.maxEOF → k = RdrKind.limit b.maxEOF) ∧
       (b.maxEOF < 0 → k = RdrKind.full) ∧
       (b.maxEOF = 0 → k = RdrKind.noRdr)) ∧
    (b.maxBOF = 0 →
       ∀ s ∈ strikesOf (identify b env).trace, ¬(s.reverse = false ∧ s.frame = false)) ∧
    (b.maxEOF = 0 →
       ∀ s ∈ strikesOf (identify b env).trace, ¬(s.reverse = true ∧ s.frame = false)) ∧
    (∃ (b2 : Matcher) (env2 : Env), b2.maxBOF = 0 ∧ b2.maxEOF = 0 ∧
       (∃ s ∈ strikesOf (identify b2 env2).trace, s.frame = true ∧ s.reverse = false) ∧
       (∃ s ∈ strikesOf (identify b2 env2).trace, s.frame = true ∧ s.reverse = true)) := by
  refine ⟨⟨?_, ?_, ?_⟩, ?_, ?_, ?_, ?_⟩
  · intro h
    rw [identify_brdr, rdrOf, if_pos h]
  · intro h
    rw [identify_brdr, rdrOf, if_neg (by omega), if_pos h]
  · intro h
    rw [identify_brdr]
    exact rdrOf_eq_noRdr.mpr h
  · intro k hk
    have hkr := identify_erdr b env k hk
    subst hkr
    refine ⟨?_, ?_, ?_⟩
    · intro h
      rw [rdrOf, if_pos h]
    · intro h
      rw [rdrOf, if_neg (by omega), if_pos h]
    · intro h
      exact rdrOf_eq_noRdr.mpr h
  · intro h0 s hs
    obtain ⟨evs, bchanInit, hevs, hbc, hz, hpath⟩ := identify_cases b env
    have hzz := hz h0
    rcases hpath with ⟨ho, ht, hse⟩ | ⟨ho, ht, hme, herr, hse⟩ | ⟨mr, hmr, ho, ht, hse⟩
    · rw [ht, strikesOf_cancel_trace, hzz.1] at hs
      simp at hs
    · rw [ht, strikesOf_cancel_trace, hzz.1] at hs
      simp at hs
    · rw [ht, strikesOf_merged_trace, hzz.1, List.nil_append] at hs
      rw [hmr] at hs
      rcases mergeRun_mem env.mergeSched _ s hs with ⟨f, hf, he⟩ | ⟨f, hf, he⟩ | ⟨x, hx, he⟩ |
        ⟨x, hx, he⟩
      · subst he
        simp [bofFrameStrike]
      · subst he
        simp [eofFrameStrike]
      · have hx2 : x ∈ optList bchanInit := hx
        rw [hzz.2] at hx2
        simp [optList] at hx2
      · subst he
        simp [eofSeqStrike]
  · intro h0 s hs
    obtain ⟨evs, bchanInit, hevs, hbc, hz, hpath⟩ := identify_cases b env
    have horg := identify_strike_origin b env s hs
    clear hpath
    rcases horg with ⟨x, hx, he⟩ | ⟨x, hx, he⟩ | ⟨f, hf, he⟩ | ⟨f, hf, he⟩
    · subst he
      simp [bofSeqStrike]
    · -- an EOF-sequence strike is impossible when MaxEOF = 0: re-run the
      -- case analysis to see that the reverse channel is nil
      obtain ⟨evs2, bchanInit2, hevs2, hbc2, hz2, hpath2⟩ := identify_cases b env
      rcases hpath2 with ⟨ho, ht, hse⟩ | ⟨ho, ht, hme, herr, hse⟩ | ⟨mr, hmr, ho, ht, hse⟩
      · rw [ht, strikesOf_cancel_trace] at hs
        obtain ⟨x2, hx2, he2⟩ := hevs2 s hs
        rw [he2] at he
        exact absurd (congrArg Strike.reverse he) (by simp [bofSeqStrike, eofSeqStrike])
      · exact absurd h0 hme
      · rw [ht, strikesOf_merged_trace] at hs
        rcases List.mem_append.mp hs with hs2 | hs2
        · obtain ⟨x2, hx2, he2⟩ := hevs2 s hs2
          rw [he2] at he
          exact absurd (congrArg Strike.reverse he) (by simp [bofSeqStrike, eofSeqStrike])
        · rw [hmr] at hs2
          rcases mergeRun_mem env.mergeSched _ s hs2 with ⟨f, hf, he2⟩ | ⟨f, hf, he2⟩ |
            ⟨x2, hx2, he2⟩ | ⟨x2, hx2, he2⟩
          · rw [he2] at he
            exact absurd (congrArg Strike.frame he) (by simp [bofFrameStrike, eofSeqStrike])
          · rw [he2] at he
            exact absurd (congrArg Strike.frame he) (by simp [eofFrameStrike, eofSeqStrike])
          · rw [he2] at he
            exact absurd (congrArg Strike.reverse he) (by simp [bofSeqStrike, eofSeqStrike])
          · have hx3 : x2 ∈ optList (if rdrOf b.maxEOF = RdrKind.noRdr then none
                else some env.eofStream) := hx2
            rw [if_pos (rdrOf_eq_noRdr.mpr h0)] at hx3
            simp [optList] at hx3
    · subst he
      simp [bofFrameStrike]
    · subst he
      simp [eofFrameStrike]
  · exact ⟨zMatcher, zEnv, rfl, rfl, by decide, by decide⟩

/-- C8: every emitted strike carries the flags of its source: a
`(reverse, frame)` pair fully determines which producer emitted it and
which test-tree table its `nodeRef` (`idxa`) was looked up in
(forward-sequence, reverse-sequence, BOF-frame, EOF-frame respectively);
frame strikes are always final, sequence strikes carry the engine
result's own final flag (visible in the `bofSeqStrike`/`eofSeqStrike`
definitions). -/
theorem c8_event_flags (b : Matcher) (env : Env) :
    ∀ s ∈ strikesOf (identify b env).trace,
      ((s.reverse = false ∧ s.frame = false) →
         ∃ x ∈ env.bofStream, s = bofSeqStrike b.bofSeq.testTreeIndex x) ∧
      ((s.reverse = true ∧ s.frame = false) →
         ∃ x ∈ env.eofStream, s = eofSeqStrike b.eofSeq.testTreeIndex x) ∧
      ((s.reverse = false ∧ s.frame = true) →
         ∃ f ∈ env.bofFrameStream, s = bofFrameStrike b.bofFrames.testTreeIndex f) ∧
      ((s.reverse = true ∧ s.frame = true) →
         ∃ f ∈ env.eofFrameStream, s = eofFrameStrike b.eofFrames.testTreeIndex f) ∧
      (s.frame = true → s.final = true) := by
  intro s hs
  rcases identify_strike_origin b env s hs with ⟨x, hx, he⟩ | ⟨x, hx, he⟩ | ⟨f, hf, he⟩ |
    ⟨f, hf, he⟩ <;> subst he
  · refine ⟨fun _ => ⟨x, hx, rfl⟩, fun h => ?_, fun h => ?_, fun h => ?_, fun h => ?_⟩
    · exact absurd h.1 (by simp [bofSeqStrike])
    · exact absurd h.2 (by simp [bofSeqStrike])
    · exact absurd h.2 (by simp [bofSeqStrike])
    · exact absurd h (by simp [bofSeqStrike])
  · refine ⟨fun h => ?_, fun _ => ⟨x, hx, rfl⟩, fun h => ?_, fun h => ?_, fun h => ?_⟩
    · exact absurd h.1 (by simp [eofSeqStrike])
    · exact absurd h.2 (by simp [eofSeqStrike])
    · exact absurd h.2 (by simp [eofSeqStrike])
    · exact absurd h (by simp [eofSeqStrike])
  · refine ⟨fun h => ?_, fun h => ?_, fun _ => ⟨f, hf, rfl⟩, fun h => ?_, fun _ => rfl⟩
    · exact absurd h.2 (by simp [bofFrameStrike])
    · exact absurd h.1 (by simp [bofFrameStrike])
    · exact absurd h.1 (by simp [bofFrameStrike])
  · refine ⟨fun h => ?_, fun h => ?_, fun h => ?_, fun _ => ⟨f, hf, rfl⟩, fun _ => rfl⟩
    · exact absurd h.1 (by simp [eofFrameStrike])
    · exact absurd h.2 (by simp [eofFrameStrike])
    · exact absurd h.1 (by simp [eofFrameStrike])

/-- C10: every frame-sourced strike (from either frame matcher) is
emitted with `subKey` (`idxb`) equal to zero — the frame merge cases
hard-code `0` in the strike literal — so only sequence-sourced strikes
can carry a non-zero `subKey`. -/
theorem c10_frame_subkey (b : Matcher) (env : Env) :
    ∀ s ∈ strikesOf (identify b env).trace, s.frame = true → s.idxb = 0 := by
  intro s hs hf
  rcases identify_strike_origin b env s hs with ⟨x, hx, he⟩ | ⟨x, hx, he⟩ | ⟨f, hf2, he⟩ |
    ⟨f, hf2, he⟩ <;> subst he
  · exact absurd hf (by simp [bofSeqStrike])
  · exact absurd hf (by simp [eofSeqStrike])
  · rfl
  · rfl

/-! Lemmas about the matcher state left behind by a call (lazy engine
builds) and about which matcher fields a call actually reads. -/

lemma rdrOf_ne_noRdr {m : Int} : rdrOf m ≠ RdrKind.noRdr ↔ m ≠ 0 :=
  not_congr rdrOf_eq_noRdr

lemma buildBof_cfg (b : Matcher) :
    (buildBof b).1.maxBOF = b.maxBOF ∧ (buildBof b).1.maxEOF = b.maxEOF ∧
    (buildBof b).1.bofSeq = b.bofSeq ∧ (buildBof b).1.eofSeq = b.eofSeq ∧
    (buildBof b).1.bofFrames = b.bofFrames ∧ (buildBof b).1.eofFrames = b.eofFrames ∧
    (buildBof b).1.estarted = b.estarted ∧ (buildBof b).1.eAho = b.eAho := by
  unfold buildBof
  split <;> exact ⟨rfl, rfl, rfl, rfl, rfl, rfl, rfl, rfl⟩

lemma buildBof_built (b : Matcher) :
    (buildBof b).2 = true ↔ (b.bstarted = false ∧ b.maxBOF ≠ 0) := by
  unfold buildBof
  split_ifs with h
  · simp only [true_iff]
    exact ⟨h.2, rdrOf_ne_noRdr.mp h.1⟩
  · simp only [Bool.false_eq_true, false_iff, not_and]
    intro h1 h2
    exact h ⟨rdrOf_ne_noRdr.mpr h2, h1⟩

lemma buildBof_bstarted (b : Matcher) :
    (buildBof b).1.bstarted = true ↔ (b.bstarted = true ∨ b.maxBOF ≠ 0) := by
  unfold buildBof
  split_ifs with h
  · simp only [true_iff]
    exact Or.inr (rdrOf_ne_noRdr.mp h.1)
  · constructor
    · exact fun h2 => Or.inl h2
    · rintro (h2 | h2)
      · exact h2
      · rcases hb : b.bstarted with _ | _
        · exact absurd ⟨rdrOf_ne_noRdr.mpr h2, hb⟩ h
        · rfl

lemma buildBof_bAho (b : Matcher) :
    (buildBof b).1.bAho =
      if b.bstarted = false ∧ b.maxBOF ≠ 0 then some (wacNew b.bofSeq.set) else b.bAho := by
  unfold buildBof
  split_ifs with h1 h2 h3
  · rfl
  · exact absurd ⟨h1.2, rdrOf_ne_noRdr.mp h1.1⟩ h2
  · exact absurd ⟨rdrOf_ne_noRdr.mpr h3.2, h3.1⟩ h1
  · rfl

lemma buildEof_cfg (b1 : Matcher) (erdr : RdrKind) :
    (buildEof b1 erdr).1.maxBOF = b1.maxBOF ∧ (buildEof b1 erdr).1.maxEOF = b1.maxEOF ∧
    (buildEof b1 erdr).1.bofSeq = b1.bofSeq ∧ (buildEof b1 erdr).1.eofSeq = b1.eofSeq ∧
    (buildEof b1 erdr).1.bofFrames = b1.bofFrames ∧
    (buildEof b1 erdr).1.eofFrames = b1.eofFrames ∧
    (buildEof b1 erdr).1.bstarted = b1.bstarted ∧ (buildEof b1 erdr).1.bAho = b1.bAho := by
  unfold buildEof
  split <;> exact ⟨rfl, rfl, rfl, rfl, rfl, rfl, rfl, rfl⟩

lemma buildEof_built (b1 : Matcher) (m : Int) :
    (buildEof b1 (rdrOf m)).2 = true ↔ (b1.estarted = false ∧ m ≠ 0) := by
  unfold buildEof
  split_ifs with h
  · simp only [true_iff]
    exact ⟨h.2, rdrOf_ne_noRdr.mp h.1⟩
  · simp only [Bool.false_eq_true, false_iff, not_and]
    intro h1 h2
    exact h ⟨rdrOf_ne_noRdr.mpr h2, h1⟩

lemma buildEof_estarted (b1 : Matcher) (m : Int) :
    (buildEof b1 (rdrOf m)).1.estarted = true ↔ (b1.estarted = true ∨ m ≠ 0) := by
  unfold buildEof
  split_ifs with h
  · simp only [true_iff]
    exact Or.inr (rdrOf_ne_noRdr.mp h.1)
  · constructor
    · exact fun h2 => Or.inl h2
    · rintro (h2 | h2)
      · exact h2
      · rcases hb : b1.estarted with _ | _
        · exact absurd ⟨rdrOf_ne_noRdr.mpr h2, hb⟩ h
        · rfl

lemma buildEof_eAho (b1 : Matcher) (m : Int) :
    (buildEof b1 (rdrOf m)).1.eAho =
      if b1.estarted = false ∧ m ≠ 0 then some (wacNew b1.eofSeq.set) else b1.eAho := by
  unfold buildEof
  split_ifs with h1 h2 h3
  · rfl
  · exact absurd ⟨h1.2, rdrOf_ne_noRdr.mp h1.1⟩ h2
  · exact absurd ⟨rdrOf_ne_noRdr.mpr h3.2, h3.1⟩ h1
  · rfl

lemma mergeEntry_bBuilt (b : Matcher) (p : Matcher × Bool) (env : Env)
    (X : Option (List WacResult)) (evs : List Strike) (se : Option SeqOutcome) :
    (mergeEntry b p env X evs se).bBuilt = p.2 := by
  simp only [mergeEntry]
  split_ifs <;> rfl

lemma mergeEntry_m (b : Matcher) (p : Matcher × Bool) (env : Env)
    (X : Option (List WacResult)) (evs : List Strike) (se : Option SeqOutcome) :
    (mergeEntry b p env X evs se).m =
      if rdrOf b.maxEOF ≠ RdrKind.noRdr ∧ env.rrdrErr = true then p.1
      else (buildEof p.1 (rdrOf b.maxEOF)).1 := by
  simp only [mergeEntry]
  split_ifs <;> rfl

lemma mergeEntry_eBuilt (b : Matcher) (p : Matcher × Bool) (env : Env)
    (X : Option (List WacResult)) (evs : List Strike) (se : Option SeqOutcome) :
    (mergeEntry b p env X evs se).eBuilt =
      if rdrOf b.maxEOF ≠ RdrKind.noRdr ∧ env.rrdrErr = true then false
      else (buildEof p.1 (rdrOf b.maxEOF)).2 := by
  simp only [mergeEntry]
  split_ifs <;> rfl

lemma mergeEntry_isMerged (b : Matcher) (p : Matcher × Bool) (env : Env)
    (X : Option (List WacResult)) (evs : List Strike) (se : Option SeqOutcome) :
    (mergeEntry b p env X evs se).outcome.isMerged = true ↔
      ¬(rdrOf b.maxEOF ≠ RdrKind.noRdr ∧ env.rrdrErr = true) := by
  simp only [mergeEntry]
  split_ifs with h <;> simp [Outcome.isMerged, h]

/-- A call goes either through the cancellation return or through
`mergeEntry`, always with `buildBof b` as the built pair. -/
lemma identify_shape2 (b : Matcher) (env : Env) :
    (∃ evs, identify b env = cancelResult b (buildBof b) evs) ∨
    (∃ X evs se, identify b env = mergeEntry b (buildBof b) env X evs se) := by
  simp only [identify]
  by_cases hb0 : rdrOf b.maxBOF = RdrKind.noRdr
  · rw [if_pos hb0]
    exact Or.inr ⟨none, [], none, rfl⟩
  · rw [if_neg hb0]
    rcases hsl : seqLoop b.bofSeq.testTreeIndex env.quitAtSeqClose env.gateAt env.bofStream
      with ⟨evs, oc⟩
    cases oc
    · exact Or.inl ⟨evs, rfl⟩
    · exact Or.inr ⟨some [], evs, some SeqOutcome.exhausted, rfl⟩
    · exact Or.inr ⟨_, evs, _, rfl⟩

/-- The matcher state after one call: configuration fields are never
mutated; the forward engine is built (and marked started) exactly when a
forward reader was needed and it was not yet started; the reverse engine
is built exactly when a reverse reader was needed, it was not yet
started, and the call reached the merge loop. -/
lemma identify_state (b : Matcher) (env : Env) :
    (identify b env).m.maxBOF = b.maxBOF ∧
    (identify b env).m.maxEOF = b.maxEOF ∧
    (identify b env).m.bofSeq = b.bofSeq ∧
    (identify b env).m.eofSeq = b.eofSeq ∧
    (identify b env).m.bofFrames = b.bofFrames ∧
    (identify b env).m.eofFrames = b.eofFrames ∧
    ((identify b env).bBuilt = true ↔ (b.bstarted = false ∧ b.maxBOF ≠ 0)) ∧
    ((identify b env).m.bstarted = true ↔ (b.bstarted = true ∨ b.maxBOF ≠ 0)) ∧
    ((identify b env).m.bAho =
       if b.bstarted = false ∧ b.maxBOF ≠ 0 then some (wacNew b.bofSeq.set) else b.bAho) ∧
    ((identify b env).eBuilt = true ↔
       (b.estarted = false ∧ b.maxEOF ≠ 0 ∧ (identify b env).outcome.isMerged = true)) ∧
    ((identify b env).m.estarted = true ↔
       (b.estarted = true ∨ (b.maxEOF ≠ 0 ∧ (identify b env).outcome.isMerged = true))) ∧
    ((identify b env).m.eAho =
       if b.estarted = false ∧ b.maxEOF ≠ 0 ∧ (identify b env).outcome.isMerged = true
       then some (wacNew b.eofSeq.set) else b.eAho) := by
  obtain ⟨bb1, bb2, bb3, bb4, bb5, bb6, bb7, bb8⟩ := buildBof_cfg b
  rcases identify_shape2 b env with ⟨evs, hid⟩ | ⟨X, evs, se, hid⟩
  · rw [hid]
    have hout : (cancelResult b (buildBof b) evs).outcome.isMerged = false := rfl
    refine ⟨bb1, bb2, bb3, bb4, bb5, bb6, buildBof_built b, buildBof_bstarted b,
      buildBof_bAho b, ?_, ?_, ?_⟩
    · simp [cancelResult, Outcome.isMerged]
    · rw [show (cancelResult b (buildBof b) evs).m = (buildBof b).1 from rfl, bb7]
      simp [cancelResult, Outcome.isMerged]
    · rw [show (cancelResult b (buildBof b) evs).m = (buildBof b).1 from rfl, bb8]
      simp [cancelResult, Outcome.isMerged]
  · rw [hid]
    rw [mergeEntry_m, mergeEntry_bBuilt, mergeEntry_eBuilt]
    have hmg := mergeEntry_isMerged b (buildBof b) env X evs se
    by_cases herr : rdrOf b.maxEOF ≠ RdrKind.noRdr ∧ env.rrdrErr = true
    · rw [if_pos herr, if_pos herr]
      have hmg2 : (mergeEntry b (buildBof b) env X evs se).outcome.isMerged = false := by
        rcases hf : (mergeEntry b (buildBof b) env X evs se).outcome.isMerged with _ | _
        · rfl
        · exact absurd (hmg.mp hf) (not_not_intro herr)
      refine ⟨bb1, bb2, bb3, bb4, bb5, bb6, buildBof_built b, buildBof_bstarted b,
        buildBof_bAho b, ?_, ?_, ?_⟩
      · simp [hmg2]
      · rw [bb7]
        simp [hmg2]
      · rw [bb8]
        simp [hmg2]
    · rw [if_neg herr, if_neg herr]
      have hmg2 : (mergeEntry b (buildBof b) env X evs se).outcome.isMerged = true :=
        hmg.mpr herr
      obtain ⟨eb1, eb2, eb3, eb4, eb5, eb6, eb7, eb8⟩ := buildEof_cfg (buildBof b).1
        (rdrOf b.maxEOF)
      refine ⟨eb1.trans bb1, eb2.trans bb2, eb3.trans bb3, eb4.trans bb4, eb5.trans bb5,
        eb6.trans bb6, buildBof_built b, ?_, ?_, ?_, ?_, ?_⟩
      · rw [eb7]
        exact buildBof_bstarted b
      · rw [eb8]
        exact buildBof_bAho b
      · rw [hmg2]
        have := buildEof_built (buildBof b).1 b.maxEOF
        rw [bb7] at this
        simpa using this
      · rw [hmg2]
        have := buildEof_estarted (buildBof b).1 b.maxEOF
        rw [bb7] at this
        simpa using this
      · rw [hmg2]
        have := buildEof_eAho (buildBof b).1 b.maxEOF
        rw [bb7, bb4, bb8] at this
        simpa using this

/-- mergeEntry produces the same trace and outcome for two matchers that
agree on `maxEOF` and on the four test-tree tables: the engine-cache
fields are not read by the merge phase. -/
lemma mergeEntry_trace_outcome_eq (b1 b2 : Matcher) (p1 p2 : Matcher × Bool) (env : Env)
    (X : Option (List WacResult)) (evs : List Strike) (se : Option SeqOutcome)
    (hmax : b1.maxEOF = b2.maxEOF) (ht : matcherTables b1 = matcherTables b2) :
    (mergeEntry b1 p1 env X evs se).trace = (mergeEntry b2 p2 env X evs se).trace ∧
    (mergeEntry b1 p1 env X evs se).outcome = (mergeEntry b2 p2 env X evs se).outcome := by
  simp only [mergeEntry, hmax, ht]
  split_ifs with h <;> exact ⟨rfl, rfl⟩

/-- identify produces the same trace and outcome for two matchers that
agree on the configuration fields (limits, pattern sets, tables): the
engine-cache fields `bstarted`/`estarted`/`bAho`/`eAho` never influence
the observable event stream. -/
lemma identify_trace_outcome_eq (b1 b2 : Matcher) (env : Env)
    (hbof : b1.maxBOF = b2.maxBOF) (heof : b1.maxEOF = b2.maxEOF)
    (hbs : b1.bofSeq = b2.bofSeq) (hes : b1.eofSeq = b2.eofSeq)
    (hbf : b1.bofFrames = b2.bofFrames) (hef : b1.eofFrames = b2.eofFrames) :
    (identify b1 env).trace = (identify b2 env).trace ∧
    (identify b1 env).outcome = (identify b2 env).outcome := by
  have ht : matcherTables b1 = matcherTables b2 := by
    simp [matcherTables, hbs, hes, hbf, hef]
  simp only [identify, hbof, hbs]
  by_cases hb0 : rdrOf b2.maxBOF = RdrKind.noRdr
  · rw [if_pos hb0, if_pos hb0]
    exact mergeEntry_trace_outcome_eq b1 b2 _ _ env none [] none heof ht
  · rw [if_neg hb0, if_neg hb0]
    rcases hsl : seqLoop b2.bofSeq.testTreeIndex env.quitAtSeqClose env.gateAt env.bofStream
      with ⟨evs, oc⟩
    cases oc
    · exact ⟨rfl, rfl⟩
    · exact mergeEntry_trace_outcome_eq b1 b2 _ _ env (some []) evs _ heof ht
    · exact mergeEntry_trace_outcome_eq b1 b2 _ _ env _ evs _ heof ht

lemma mergeEntry_env_eq (b : Matcher) (p : Matcher × Bool) (env1 env2 : Env)
    (X : Option (List WacResult)) (evs : List Strike) (se : Option SeqOutcome)
    (h1 : env1.rrdrErr = env2.rrdrErr) (h2 : env1.bofFrameStream = env2.bofFrameStream)
    (h3 : env1.eofFrameStream = env2.eofFrameStream) (h4 : env1.eofStream = env2.eofStream)
    (h5 : env1.mergeSched = env2.mergeSched) :
    mergeEntry b p env1 X evs se = mergeEntry b p env2 X evs se := by
  simp only [mergeEntry, h1, h2, h3, h4, h5]

lemma mergeEntry_trace_noerr (b : Matcher) (p : Matcher × Bool) (env : Env)
    (X : Option (List WacResult)) (evs : List Strike) (se : Option SeqOutcome)
    (h : ¬(rdrOf b.maxEOF ≠ RdrKind.noRdr ∧ env.rrdrErr = true)) :
    (mergeEntry b p env X evs se).trace =
      evs.map OutEvent.ev ++
      (mergeRun (matcherTables b)
        { bfchan := some env.bofFrameStream, efchan := some env.eofFrameStream,
          bchan := X,
          echan := if rdrOf b.maxEOF = RdrKind.noRdr then none else some env.eofStream }
        env.mergeSched).1.map OutEvent.ev ++
      (if (mergeRun (matcherTables b)
        { bfchan := some env.bofFrameStream, efchan := some env.eofFrameStream,
          bchan := X,
          echan := if rdrOf b.maxEOF = RdrKind.noRdr then none else some env.eofStream }
        env.mergeSched).2.allNone = true then [OutEvent.closeOut] else []) := by
  simp only [mergeEntry, if_neg h]

/-- C4: when a forward reader exists, the gate never fires, and
cancellation is pending when the forward-sequence channel closes, the
call returns through the cancellation path: it closes the output channel
immediately after the Phase SEQ-ONLY events and never enters Phase MERGE;
no frame-sourced and no EOF-sequence event is emitted, and if
cancellation is asserted before any forward-sequence event is produced
the output channel closes with zero events. -/
theorem c4_cancel_during_seq (b : Matcher) (env : Env)
    (hb : b.maxBOF ≠ 0) (hq : env.quitAtSeqClose = true) (hg : env.gateAt = none) :
    (identify b env).outcome = Outcome.cancelled ∧
    (identify b env).trace =
      (env.bofStream.map fun x => OutEvent.ev (bofSeqStrike b.bofSeq.testTreeIndex x)) ++
        [OutEvent.closeOut] ∧
    (∀ s ∈ strikesOf (identify b env).trace, s.reverse = false ∧ s.frame = false) ∧
    (env.bofStream = [] → (identify b env).trace = [OutEvent.closeOut]) := by
  have hne : ¬ rdrOf b.maxBOF = RdrKind.noRdr := rdrOf_ne_noRdr.mpr hb
  have hsl : seqLoop b.bofSeq.testTreeIndex env.quitAtSeqClose env.gateAt env.bofStream =
      (env.bofStream.map (bofSeqStrike b.bofSeq.testTreeIndex), SeqOutcome.cancelled) := by
    rw [hq, hg]
    exact seqLoop_quit_none _ _
  have hid : identify b env =
      cancelResult b (buildBof b)
        (env.bofStream.map (bofSeqStrike b.bofSeq.testTreeIndex)) := by
    simp only [identify, if_neg hne, hsl]
  have ht : (identify b env).trace =
      (env.bofStream.map fun x => OutEvent.ev (bofSeqStrike b.bofSeq.testTreeIndex x)) ++
        [OutEvent.closeOut] := by
    rw [hid]
    show (env.bofStream.map (bofSeqStrike b.bofSeq.testTreeIndex)).map OutEvent.ev ++
        [OutEvent.closeOut] = _
    rw [List.map_map]
    rfl
  refine ⟨by rw [hid]; rfl, ht, ?_, ?_⟩
  · intro s hs
    rw [ht] at hs
    rw [strikesOf_append, strikesOf_close, List.append_nil] at hs
    rw [mem_strikesOf] at hs
    obtain ⟨x, _, he⟩ := List.mem_map.mp hs
    have he2 : bofSeqStrike b.bofSeq.testTreeIndex x = s := OutEvent.ev.inj he
    rw [← he2]
    exact ⟨rfl, rfl⟩
  · intro h0
    rw [ht, h0]
    rfl

/-- C5: when MaxEOF is non-zero and reverse-reader construction fails
(with no cancellation pending), the call returns through the error path:
it emits only the Phase SEQ-ONLY events (all with `reverse = false,
frame = false` — in particular no EOF-sequence event and no forwarded
frame event) followed immediately by the channel close; the reverse
engine is not built, the reverse-engine cache and every configuration
field of the Matcher are left untouched, and any subsequent call on the
resulting Matcher produces the same trace and outcome it would have
produced on the original Matcher. -/
theorem c5_reverse_reader_failure (b : Matcher) (env : Env)
    (he : b.maxEOF ≠ 0) (herr : env.rrdrErr = true) (hq : env.quitAtSeqClose = false) :
    (identify b env).outcome = Outcome.reverseErr ∧
    (∃ pre, (identify b env).trace = pre ++ [OutEvent.closeOut] ∧
       ∀ s : Strike, OutEvent.ev s ∈ pre → s.reverse = false ∧ s.frame = false) ∧
    (∀ s ∈ strikesOf (identify b env).trace, s.reverse = false ∧ s.frame = false) ∧
    (identify b env).eBuilt = false ∧
    (identify b env).m.estarted = b.estarted ∧
    (identify b env).m.eAho = b.eAho ∧
    (identify b env).m.maxBOF = b.maxBOF ∧ (identify b env).m.maxEOF = b.maxEOF ∧
    (identify b env).m.bofSeq = b.bofSeq ∧ (identify b env).m.eofSeq = b.eofSeq ∧
    (identify b env).m.bofFrames = b.bofFrames ∧
    (identify b env).m.eofFrames = b.eofFrames ∧
    (∀ env2, (identify (identify b env).m env2).trace = (identify b env2).trace ∧
       (identify (identify b env).m env2).outcome = (identify b env2).outcome) := by
  have herrp : rdrOf b.maxEOF ≠ RdrKind.noRdr ∧ env.rrdrErr = true :=
    ⟨rdrOf_ne_noRdr.mpr he, herr⟩
  have hpath : ∃ X evs se, identify b env = mergeEntry b (buildBof b) env X evs se ∧
      ∀ s ∈ evs, ∃ x ∈ env.bofStream, s = bofSeqStrike b.bofSeq.testTreeIndex x := by
    by_cases hb0 : rdrOf b.maxBOF = RdrKind.noRdr
    · exact ⟨none, [], none, by simp only [identify, if_pos hb0], by simp⟩
    · rcases hsl : seqLoop b.bofSeq.testTreeIndex env.quitAtSeqClose env.gateAt env.bofStream
        with ⟨evs, oc⟩
      have hmem : ∀ s ∈ evs, ∃ x ∈ env.bofStream, s = bofSeqStrike b.bofSeq.testTreeIndex x := by
        intro s hs
        exact seqLoop_mem env.gateAt env.bofStream s (by rw [hsl]; exact hs)
      cases oc with
      | cancelled =>
        rw [hq] at hsl
        have hnc := seqLoop_not_cancelled b.bofSeq.testTreeIndex env.gateAt env.bofStream
        rw [hsl] at hnc
        simp at hnc
      | exhausted =>
        exact ⟨some [], evs, some SeqOutcome.exhausted,
          by simp only [identify, if_neg hb0, hsl], hmem⟩
      | gated rest =>
        exact ⟨some rest, evs, some (SeqOutcome.gated rest),
          by simp only [identify, if_neg hb0, hsl], hmem⟩
  obtain ⟨X, evs, se, hid, hevs⟩ := hpath
  have hme : mergeEntry b (buildBof b) env X evs se =
      { trace := evs.map OutEvent.ev ++ [OutEvent.closeOut], m := (buildBof b).1,
        bBuilt := (buildBof b).2, eBuilt := false, brdr := rdrOf b.maxBOF,
        erdr := some (rdrOf b.maxEOF), seqEnd := se, outcome := Outcome.reverseErr } := by
    simp only [mergeEntry, if_pos herrp]
  obtain ⟨bb1, bb2, bb3, bb4, bb5, bb6, bb7, bb8⟩ := buildBof_cfg b
  have hm : (identify b env).m = (buildBof b).1 := by
    rw [hid, hme]
  have ht : (identify b env).trace = evs.map OutEvent.ev ++ [OutEvent.closeOut] := by
    rw [hid, hme]
  have hflags : ∀ s : Strike, OutEvent.ev s ∈ evs.map OutEvent.ev →
      s.reverse = false ∧ s.frame = false := by
    intro s hs
    have hs2 : s ∈ evs := by simpa using hs
    obtain ⟨x, _, he2⟩ := hevs s hs2
    rw [he2]
    exact ⟨rfl, rfl⟩
  refine ⟨by rw [hid, hme], ⟨evs.map OutEvent.ev, ht, hflags⟩, ?_, by rw [hid, hme],
    by rw [hm]; exact bb7, by rw [hm]; exact bb8, by rw [hm]; exact bb1,
    by rw [hm]; exact bb2, by rw [hm]; exact bb3, by rw [hm]; exact bb4,
    by rw [hm]; exact bb5, by rw [hm]; exact bb6, ?_⟩
  · intro s hs
    rw [ht, strikesOf_cancel_trace] at hs
    obtain ⟨x, _, he2⟩ := hevs s hs
    rw [he2]
    exact ⟨rfl, rfl⟩
  · intro env2
    exact identify_trace_outcome_eq (identify b env).m b env2
      (by rw [hm]; exact bb1) (by rw [hm]; exact bb2) (by rw [hm]; exact bb3)
      (by rw [hm]; exact bb4) (by rw [hm]; exact bb5) (by rw [hm]; exact bb6)

lemma mergeEntry_outcome_err (b : Matcher) (p : Matcher × Bool) (env : Env)
    (X : Option (List WacResult)) (evs : List Strike) (se : Option SeqOutcome)
    (h : rdrOf b.maxEOF ≠ RdrKind.noRdr ∧ env.rrdrErr = true) :
    (mergeEntry b p env X evs se).outcome = Outcome.reverseErr := by
  simp only [mergeEntry, if_pos h]

lemma mergeEntry_outcome_noerr (b : Matcher) (p : Matcher × Bool) (env : Env)
    (X : Option (List WacResult)) (evs : List Strike) (se : Option SeqOutcome)
    (h : ¬(rdrOf b.maxEOF ≠ RdrKind.noRdr ∧ env.rrdrErr = true)) :
    (mergeEntry b p env X evs se).outcome = Outcome.merged
      (mergeRun (matcherTables b)
        { bfchan := some env.bofFrameStream, efchan := some env.eofFrameStream,
          bchan := X,
          echan := if rdrOf b.maxEOF = RdrKind.noRdr then none else some env.eofStream }
        env.mergeSched).2 := by
  simp only [mergeEntry, if_neg h]

lemma allNone_bchan {st : MergeState} (h : st.allNone = true) : st.bchan = none := by
  simp only [MergeState.allNone, Bool.and_eq_true, Option.isNone_iff_eq_none] at h
  tauto

/-- C9: if the escalation gate is selected after `k` forward-sequence
events (with more still pending, so during Phase SEQ-ONLY), the exclusive
loop ends in the `gated` state carrying the undelivered remainder of the
forward-sequence channel — the channel is not discarded — and in every
terminating execution (any merge schedule whose run ends with all four
channels nilled, the loop's exit condition) every remaining
forward-sequence event is forwarded from within the merge loop; a gate
signal that would arrive only after the forward channel is exhausted
(Phase MERGE already begun) has no effect: the call is identical to one
with no gate signal at all. -/
theorem c9_gate_escalation (b : Matcher) (env : Env) (k : Nat) (hb : b.maxBOF ≠ 0) :
    (k ≤ env.bofStream.length →
       ((identify b { env with gateAt := some k }).seqEnd =
          some (SeqOutcome.gated (env.bofStream.drop k)) ∧
        (∀ fin, (identify b { env with gateAt := some k }).outcome = Outcome.merged fin →
           fin.allNone = true →
           ∀ x ∈ env.bofStream.drop k,
             OutEvent.ev (bofSeqStrike b.bofSeq.testTreeIndex x) ∈
               (identify b { env with gateAt := some k }).trace))) ∧
    (env.bofStream.length < k →
       identify b { env with gateAt := some k } = identify b { env with gateAt := none }) := by
  have hne : ¬ rdrOf b.maxBOF = RdrKind.noRdr := rdrOf_ne_noRdr.mpr hb
  constructor
  · intro hk
    have hsl : seqLoop b.bofSeq.testTreeIndex env.quitAtSeqClose (some k) env.bofStream =
        ((env.bofStream.take k).map (bofSeqStrike b.bofSeq.testTreeIndex),
          SeqOutcome.gated (env.bofStream.drop k)) :=
      seqLoop_gate_le b.bofSeq.testTreeIndex env.quitAtSeqClose env.bofStream k hk
    have hid : identify b { env with gateAt := some k } =
        mergeEntry b (buildBof b) { env with gateAt := some k }
          (some (env.bofStream.drop k))
          ((env.bofStream.take k).map (bofSeqStrike b.bofSeq.testTreeIndex))
          (some (SeqOutcome.gated (env.bofStream.drop k))) := by
      simp only [identify, if_neg hne, hsl]
    constructor
    · rw [hid, mergeEntry_seqEnd]
    · intro fin hout hall x hx
      by_cases herr : rdrOf b.maxEOF ≠ RdrKind.noRdr ∧
          ({ env with gateAt := some k } : Env).rrdrErr = true
      · rw [hid, mergeEntry_outcome_err b (buildBof b) { env with gateAt := some k }
          (some (env.bofStream.drop k)) _ _ herr] at hout
        simp at hout
      · rw [hid, mergeEntry_outcome_noerr b (buildBof b) { env with gateAt := some k }
          (some (env.bofStream.drop k)) _ _ herr] at hout
        have hfin : (mergeRun (matcherTables b)
            { bfchan := some ({ env with gateAt := some k } : Env).bofFrameStream,
              efchan := some ({ env with gateAt := some k } : Env).eofFrameStream,
              bchan := some (env.bofStream.drop k),
              echan := if rdrOf b.maxEOF = RdrKind.noRdr then none
                       else some ({ env with gateAt := some k } : Env).eofStream }
            ({ env with gateAt := some k } : Env).mergeSched).2 = fin := by
          cases hout
          rfl
        have hbfin : (mergeRun (matcherTables b)
            { bfchan := some ({ env with gateAt := some k } : Env).bofFrameStream,
              efchan := some ({ env with gateAt := some k } : Env).eofFrameStream,
              bchan := some (env.bofStream.drop k),
              echan := if rdrOf b.maxEOF = RdrKind.noRdr then none
                       else some ({ env with gateAt := some k } : Env).eofStream }
            ({ env with gateAt := some k } : Env).mergeSched).2.bchan = none := by
          rw [hfin]
          exact allNone_bchan hall
        have hmem := mergeRun_bsq_all (t := matcherTables b)
          ({ env with gateAt := some k } : Env).mergeSched
          { bfchan := some ({ env with gateAt := some k } : Env).bofFrameStream,
            efchan := some ({ env with gateAt := some k } : Env).eofFrameStream,
            bchan := some (env.bofStream.drop k),
            echan := if rdrOf b.maxEOF = RdrKind.noRdr then none
                     else some ({ env with gateAt := some k } : Env).eofStream }
          (env.bofStream.drop k) rfl hbfin x hx
        rw [hid, mergeEntry_trace_noerr b (buildBof b) { env with gateAt := some k }
          (some (env.bofStream.drop k)) _ _ herr]
        exact List.mem_append.mpr (Or.inl (List.mem_append.mpr
          (Or.inr (List.mem_map_of_mem OutEvent.ev hmem))))
  · intro hgt
    have hsl2 := seqLoop_gate_gt b.bofSeq.testTreeIndex env.quitAtSeqClose env.bofStream k hgt
    simp only [identify, if_neg hne]
    rw [hsl2]
    rcases hsl3 : seqLoop b.bofSeq.testTreeIndex env.quitAtSeqClose none env.bofStream
      with ⟨evs, oc⟩
    cases oc
    · rfl
    · exact mergeEntry_env_eq b (buildBof b) { env with gateAt := some k }
        { env with gateAt := none } (some []) evs (some SeqOutcome.exhausted)
        rfl rfl rfl rfl rfl
    · exact mergeEntry_env_eq b (buildBof b) { env with gateAt := some k }
        { env with gateAt := none } _ evs _ rfl rfl rfl rfl rfl

/-! Multi-call lemmas: the build-once behaviour of the cached engines
across a sequence of calls on the same matcher. -/

lemma identifyCalls_cached_b :
    ∀ (envs : List Env) (b : Matcher) (w : Wac), b.bstarted = true → b.bAho = some w →
      ∀ r ∈ (identifyCalls b envs).1,
        r.bBuilt = false ∧ r.m.bstarted = true ∧ r.m.bAho = some w := by
  intro envs
  induction envs with
  | nil =>
    intro b w h1 h2 r hr
    simp [identifyCalls] at hr
  | cons e es ih =>
    intro b w h1 h2 r hr
    obtain ⟨c1, c2, c3, c4, c5, c6, hbB, hbs, hbA, heB, hest, heA⟩ := identify_state b e
    have hr1bB : (identify b e).bBuilt = false := by
      rcases hx : (identify b e).bBuilt with _ | _
      · rfl
      · have h3 := (hbB.mp hx).1
        rw [h1] at h3
        simp at h3
    have hr1bs : (identify b e).m.bstarted = true := hbs.mpr (Or.inl h1)
    have hr1bA : (identify b e).m.bAho = some w := by
      rw [hbA, if_neg, h2]
      intro hcon
      rw [h1] at hcon
      simp at hcon
    simp only [identifyCalls] at hr
    rcases List.mem_cons.mp hr with hr | hr
    · subst hr
      exact ⟨hr1bB, hr1bs, hr1bA⟩
    · exact ih (identify b e).m w hr1bs hr1bA r hr

lemma identifyCalls_bcount :
    ∀ (envs : List Env) (b : Matcher), b.maxBOF ≠ 0 → b.bstarted = false → envs ≠ [] →
      ((((identifyCalls b envs).1.map fun r => r.bBuilt).count true = 1) ∧
       (∀ r0, ((identifyCalls b envs).1).head? = some r0 → r0.bBuilt = true) ∧
       (∀ r ∈ (identifyCalls b envs).1,
          r.m.bstarted = true ∧ r.m.bAho = some (wacNew b.bofSeq.set))) := by
  intro envs
  cases envs with
  | nil =>
    intro b h1 h2 h3
    exact absurd rfl h3
  | cons e es =>
    intro b h1 h2 _
    obtain ⟨c1, c2, c3, c4, c5, c6, hbB, hbs, hbA, heB, hest, heA⟩ := identify_state b e
    have hr1 : (identify b e).bBuilt = true := hbB.mpr ⟨h2, h1⟩
    have hr1bs : (identify b e).m.bstarted = true := hbs.mpr (Or.inr h1)
    have hr1bA : (identify b e).m.bAho = some (wacNew b.bofSeq.set) := by
      rw [hbA, if_pos ⟨h2, h1⟩]
    have hcached := identifyCalls_cached_b es (identify b e).m (wacNew b.bofSeq.set)
      hr1bs hr1bA
    simp only [identifyCalls]
    refine ⟨?_, ?_, ?_⟩
    · have hrest : (((identifyCalls (identify b e).m es).1.map fun r => r.bBuilt).count true
          = 0) := by
        rw [List.count_eq_zero]
        intro hmem
        obtain ⟨r, hr, hrb⟩ := List.mem_map.mp hmem
        rw [(hcached r hr).1] at hrb
        simp at hrb
      simp [List.count_cons, hrest, hr1]
    · intro r0 hr0
      rw [List.head?_cons] at hr0
      cases hr0
      exact hr1
    · intro r hr
      rcases List.mem_cons.mp hr with hr | hr
      · subst hr
        exact ⟨hr1bs, hr1bA⟩
      · exact ⟨(hcached r hr).2.1, (hcached r hr).2.2⟩

lemma identifyCalls_ecount :
    ∀ (envs : List Env) (b : Matcher), b.maxEOF ≠ 0 →
      (((identifyCalls b envs).1.map fun r => r.eBuilt).count true =
        if b.estarted = false ∧
            (identifyCalls b envs).1.any (fun r => r.outcome.isMerged) = true
        then 1 else 0) := by
  intro envs
  induction envs with
  | nil =>
    intro b h
    simp [identifyCalls]
  | cons e es ih =>
    intro b h
    obtain ⟨c1, c2, c3, c4, c5, c6, hbB, hbs, hbA, heB, hest, heA⟩ := identify_state b e
    have hmax2 : (identify b e).m.maxEOF ≠ 0 := by
      rw [c2]
      exact h
    have ihm := ih (identify b e).m hmax2
    simp only [identifyCalls, List.map_cons, List.any_cons]
    by_cases hes : b.estarted = true
    · have h1 : (identify b e).eBuilt = false := by
        rcases hx : (identify b e).eBuilt with _ | _
        · rfl
        · have h3 := (heB.mp hx).1
          rw [hes] at h3
          simp at h3
      have h2 : (identify b e).m.estarted = true := hest.mpr (Or.inl hes)
      rw [h2] at ihm
      simp [List.count_cons, h1, h2, hes, ihm]
    · have hes2 : b.estarted = false := by
        simpa using hes
      by_cases hmg : (identify b e).outcome.isMerged = true
      · have h1 : (identify b e).eBuilt = true := heB.mpr ⟨hes2, h, hmg⟩
        have h2 : (identify b e).m.estarted = true := hest.mpr (Or.inr ⟨h, hmg⟩)
        rw [h2] at ihm
        simp [List.count_cons, h1, h2, hmg, hes2, ihm]
      · have hmg2 : (identify b e).outcome.isMerged = false := by
          simpa using hmg
        have h1 : (identify b e).eBuilt = false := by
          rcases hx : (identify b e).eBuilt with _ | _
          · rfl
          · have h3 := (heB.mp hx).2.2
            rw [hmg2] at h3
            simp at h3
        have h2 : (identify b e).m.estarted = false := by
          rcases hx : (identify b e).m.estarted with _ | _
          · rfl
          · rcases hest.mp hx with h3 | h3
            · rw [hes2] at h3
              simp at h3
            · rw [hmg2] at h3
              simp at h3
        rw [h2] at ihm
        simp [List.count_cons, h1, h2, hmg2, hes2, ihm]

lemma identifyCalls_eAho :
    ∀ (envs : List Env) (b : Matcher) (S : List (List Nat)),
      b.eofSeq.set = S →
      (b.estarted = true → b.eAho = some (wacNew S)) →
      ∀ r ∈ (identifyCalls b envs).1,
        (r.m.estarted = true → r.m.eAho = some (wacNew S)) := by
  intro envs
  induction envs with
  | nil =>
    intro b S hS hinv r hr
    simp [identifyCalls] at hr
  | cons e es ih =>
    intro b S hS hinv r hr
    obtain ⟨c1, c2, c3, c4, c5, c6, hbB, hbs, hbA, heB, hest, heA⟩ := identify_state b e
    have hr1 : (identify b e).m.estarted = true →
        (identify b e).m.eAho = some (wacNew S) := by
      intro hst
      by_cases hcond : b.estarted = false ∧ b.maxEOF ≠ 0 ∧
          (identify b e).outcome.isMerged = true
      · rw [heA, if_pos hcond, hS]
      · rw [heA, if_neg hcond]
        rcases hest.mp hst with h3 | h3
        · exact hinv h3
        · rcases hbe : b.estarted with _ | _
          · exact absurd ⟨hbe, h3.1, h3.2⟩ hcond
          · exact hinv hbe
    simp only [identifyCalls] at hr
    rcases List.mem_cons.mp hr with hr | hr
    · subst hr
      exact hr1
    · exact ih (identify b e).m S (by rw [c4]; exact hS) hr1 r hr

/-- Concrete fresh matcher used by the counterexample and witnesses. -/
def cMatcher : Matcher :=
  ⟨1, 1, ⟨[], []⟩, ⟨[], []⟩, ⟨[]⟩, ⟨[]⟩, false, false, none, none⟩

/-- Concrete environment in which reverse-reader construction fails. -/
def cEnvErr : Env := ⟨[], [], [], [], false, none, true, []⟩

/-- C6 counterexample: one call on a fresh Matcher with `MaxEOF ≠ 0`
whose reverse-reader construction fails performs zero reverse-engine
builds, so the reverse engine is not "constructed exactly once" across
the calls of this sequence, refuting the claim as stated. -/
theorem c6_counterexample :
    cMatcher.estarted = false ∧ cMatcher.maxEOF ≠ 0 ∧
    ¬((((identifyCalls cMatcher [cEnvErr]).1.map fun r => r.eBuilt).count true) = 1) := by
  decide

/-- C6 (amended): across a sequence of calls on the same fresh Matcher
with both limits non-zero, the forward sequence engine is built exactly
once — on the first call — and every call leaves the cached engine in
place; the reverse sequence engine is built exactly once if some call
reaches the merge loop (neither cancelled during Phase SEQ-ONLY nor
aborted by reverse-reader construction failure) and zero times
otherwise, and once the reverse engine is marked started it always holds
the engine compiled from the matcher's EOF pattern set. -/
theorem c6_amended_build_once (b : Matcher) (envs : List Env)
    (hbs : b.bstarted = false) (hes : b.estarted = false)
    (hbof : b.maxBOF ≠ 0) (heof : b.maxEOF ≠ 0) (hne : envs ≠ []) :
    ((((identifyCalls b envs).1.map fun r => r.bBuilt).count true = 1) ∧
     (∀ r0, ((identifyCalls b envs).1).head? = some r0 → r0.bBuilt = true) ∧
     (∀ r ∈ (identifyCalls b envs).1, r.m.bAho = some (wacNew b.bofSeq.set)) ∧
     (((identifyCalls b envs).1.map fun r => r.eBuilt).count true =
        if (identifyCalls b envs).1.any (fun r => r.outcome.isMerged) = true
        then 1 else 0) ∧
     (∀ r ∈ (identifyCalls b envs).1,
        r.m.estarted = true → r.m.eAho = some (wacNew b.eofSeq.set))) := by
  obtain ⟨hb1, hb2, hb3⟩ := identifyCalls_bcount envs b hbof hbs hne
  refine ⟨hb1, hb2, fun r hr => (hb3 r hr).2, ?_, ?_⟩
  · have := identifyCalls_ecount envs b heof
    rw [hes] at this
    simpa using this
  · exact identifyCalls_eAho envs b b.eofSeq.set rfl
      (fun h => absurd h (by rw [hes]; simp))

/-! Interleaving model for the unsynchronized lazy-build section. -/

/-- State shared by two concurrent executions of the lazy-build section
(lines 41-44: `if rdr != nil && !b.bstarted { b.bAho = wac.New(b.BOFSeq.Set);
b.bstarted = true }`) on the same Matcher: the `bstarted` flag, the
number of `wac.New` invocations so far, and each thread's program
counter (0 = about to read `b.bstarted`, 1 = read false and about to
build, 2 = done). -/
structure RaceState where
  bstarted : Bool
  builds : Nat
  pc1 : Nat
  pc2 : Nat
deriving DecidableEq, Repr

/-- One atomic step of a thread in the lazy-build section: reading the
flag, or building the engine and setting the flag. -/
def threadStep : Bool → Nat → Nat → Bool × Nat × Nat
  | bst, builds, 0 => if bst then (bst, builds, 2) else (bst, builds, 1)
  | _, builds, 1 => (true, builds + 1, 2)
  | bst, builds, pc => (bst, builds, pc)

/-- Advance the chosen thread (`true` = first thread) by one step. -/
def raceStep (s : RaceState) (t : Bool) : RaceState :=
  if t then
    let r := threadStep s.bstarted s.builds s.pc1
    { bstarted := r.1, builds := r.2.1, pc1 := r.2.2, pc2 := s.pc2 }
  else
    let r := threadStep s.bstarted s.builds s.pc2
    { bstarted := r.1, builds := r.2.1, pc1 := s.pc1, pc2 := r.2.2 }

/-- Run the two threads under an interleaving schedule. -/
def raceRun : RaceState → List Bool → RaceState
  | s, [] => s
  | s, t :: ts => raceRun (raceStep s t) ts

/-- Both calls start with the build not yet performed. -/
def raceInit : RaceState := ⟨false, 0, 0, 0⟩

/-- C7 (refuted — code bug): the build-once transition is an
unsynchronized check-then-act (`!b.bstarted` test, then `b.bAho =
wac.New(...)` and `b.bstarted = true` with no lock): under the
interleaving in which both concurrent first calls read `bstarted` before
either writes it, the engine is built twice (and `bAho` is written
twice), contradicting the claimed exactly-one-build guarantee, whereas
any non-overlapping schedule builds it once. -/
theorem c7_unsynchronized_double_build :
    (raceRun raceInit [true, false, true, false]).builds = 2 ∧
    (raceRun raceInit [true, true, false, false]).builds = 1 ∧
    (raceRun raceInit [false, false, true, true]).builds = 1 := by
  decide

/-! Concrete inputs used by the witness theorems. -/

/-- A fresh matcher with both limits positive and one pattern per table. -/
def wMatcher : Matcher :=
  ⟨2, 2, ⟨[[1]], [5]⟩, ⟨[[2]], [7]⟩, ⟨[9]⟩, ⟨[11]⟩, false, false, none, none⟩

/-- An environment with one result on each of the four producer streams
and a merge schedule that drains every channel. -/
def wEnv : Env :=
  ⟨[⟨0, 0, 0, 1, true⟩], [⟨0, 1, 2, 1, true⟩], [⟨0, 3, 1⟩], [⟨0, 4, 1⟩], false, none, false,
   [MChan.bfr, MChan.bfr, MChan.efr, MChan.efr, MChan.bsq, MChan.esq, MChan.esq]⟩

/-- Same environment but with cancellation pending when the forward
channel closes. -/
def wEnvQuit : Env := { wEnv with quitAtSeqClose := true }

/-- Same environment but with reverse-reader construction failing. -/
def wEnvErr : Env := { wEnv with rrdrErr := true }

/-- Witness for C1: on the cancellation path of a concrete call, the
close event is on the output channel. -/
theorem c1_output_channel_close_witness :
    OutEvent.closeOut ∈ (identify wMatcher wEnvQuit).trace :=
  (c1_output_channel_close wMatcher wEnvQuit).2.1 (Or.inl (by decide))

/-- Same environment but with a merge schedule that drains the carried
forward-sequence channel of a gated call. -/
def wEnvGate : Env :=
  { wEnv with mergeSched := [MChan.bsq, MChan.bsq, MChan.bfr, MChan.bfr, MChan.efr,
      MChan.efr, MChan.esq, MChan.esq] }

/-- Witness for C2: at a concrete call the trace starts with the Phase
SEQ-ONLY events, and a concrete frame-flagged event in the trace yields
the not-cancelled conclusion. -/
theorem c2_phase_order_witness :
    (∃ post, (identify wMatcher wEnv).trace =
       (seqPhase wMatcher wEnv).map OutEvent.ev ++ post) ∧
    (identify wMatcher wEnv).outcome ≠ Outcome.cancelled :=
  ⟨(c2_phase_order wMatcher wEnv).1,
   ((c2_phase_order wMatcher wEnv).2.2
      ⟨⟨9, 0, 3, 1, false, true, true⟩, by decide, Or.inl rfl⟩).1⟩

/-- Witness for C3: a positive `MaxBOF` selects the limit reader at a
concrete call. -/
theorem c3_scan_limits_witness :
    (identify wMatcher wEnv).brdr = RdrKind.limit wMatcher.maxBOF :=
  (c3_scan_limits wMatcher wEnv).1.1 (by decide)

/-- Witness for C4: the cancellation hypotheses hold at a concrete call
and the call returns through the cancellation path. -/
theorem c4_cancel_during_seq_witness :
    wMatcher.maxBOF ≠ 0 ∧ wEnvQuit.quitAtSeqClose = true ∧ wEnvQuit.gateAt = none ∧
    (identify wMatcher wEnvQuit).outcome = Outcome.cancelled :=
  ⟨by decide, rfl, rfl, (c4_cancel_during_seq wMatcher wEnvQuit (by decide) rfl rfl).1⟩

/-- Witness for C5: the failure hypotheses hold at a concrete call and
the call returns through the reverse-error path. -/
theorem c5_reverse_reader_failure_witness :
    wMatcher.maxEOF ≠ 0 ∧ wEnvErr.rrdrErr = true ∧ wEnvErr.quitAtSeqClose = false ∧
    (identify wMatcher wEnvErr).outcome = Outcome.reverseErr :=
  ⟨by decide, rfl, rfl, (c5_reverse_reader_failure wMatcher wEnvErr (by decide) rfl rfl).1⟩

/-- Witness for C6 (amended): one call on a fresh matcher performs
exactly one forward-engine build. -/
theorem c6_amended_build_once_witness :
    wMatcher.bstarted = false ∧ wMatcher.estarted = false ∧ wMatcher.maxBOF ≠ 0 ∧
    wMatcher.maxEOF ≠ 0 ∧ ([wEnv] : List Env) ≠ [] ∧
    ((((identifyCalls wMatcher [wEnv]).1.map fun r => r.bBuilt).count true) = 1) :=
  ⟨rfl, rfl, by decide, by decide, by decide,
    (c6_amended_build_once wMatcher [wEnv] rfl rfl (by decide) (by decide) (by decide)).1⟩

/-- Witness for C8: a concrete BOF-frame strike of a concrete call is
traced back to the BOF-frame stream through its flag pair. -/
theorem c8_event_flags_witness :
    (⟨9, 0, 3, 1, false, true, true⟩ : Strike) ∈ strikesOf (identify wMatcher wEnv).trace ∧
    (∃ f ∈ wEnv.bofFrameStream,
       (⟨9, 0, 3, 1, false, true, true⟩ : Strike) =
         bofFrameStrike wMatcher.bofFrames.testTreeIndex f) :=
  ⟨by decide,
    (c8_event_flags wMatcher wEnv ⟨9, 0, 3, 1, false, true, true⟩ (by decide)).2.2.1
      ⟨rfl, rfl⟩⟩

/-- Witness for C9: gating before any event leaves the call in the gated
state carrying the whole forward stream, and in a concrete terminating
execution the carried event is forwarded from within the merge loop. -/
theorem c9_gate_escalation_witness :
    wMatcher.maxBOF ≠ 0 ∧ 0 ≤ wEnvGate.bofStream.length ∧
    (identify wMatcher { wEnvGate with gateAt := some 0 }).seqEnd =
      some (SeqOutcome.gated (wEnvGate.bofStream.drop 0)) ∧
    OutEvent.ev (bofSeqStrike wMatcher.bofSeq.testTreeIndex ⟨0, 0, 0, 1, true⟩) ∈
      (identify wMatcher { wEnvGate with gateAt := some 0 }).trace :=
  ⟨by decide, by decide,
   ((c9_gate_escalation wMatcher wEnvGate 0 (by decide)).1 (by decide)).1,
   ((c9_gate_escalation wMatcher wEnvGate 0 (by decide)).1 (by decide)).2
     ⟨none, none, none, none⟩ (by decide) (by decide) ⟨0, 0, 0, 1, true⟩ (by decide)⟩

/-- Witness for C10: a concrete frame strike of a concrete call has
`subKey` zero. -/
theorem c10_frame_subkey_witness :
    (⟨9, 0, 3, 1, false, true, true⟩ : Strike) ∈ strikesOf (identify wMatcher wEnv).trace ∧
    (⟨9, 0, 3, 1, false, true, true⟩ : Strike).idxb = 0 :=
  ⟨by decide, c10_frame_subkey wMatcher wEnv ⟨9, 0, 3, 1, false, true, true⟩ (by decide) rfl⟩

end Bytematcher
